import Mathlib

/-!
Whack-a-mole on the BeagleBone Black: the game state machine.

A shallow embedding of `src/main.c`.

Modelling conventions.

* The C `int` globals (`lives`, `level`, `seed`, `period`, `timeout`, `points`,
  `current`, `timeout_counter`) are integers (`Int`).  The two counters that no
  state ever resets to a small value, `seed` (`seed += SEED_INCREMENT` on every
  idle pass) and `points` (`points += level_points`), leave the range of a
  32-bit `int` in executions the program can perform; their additions wrap
  modulo `2^32` into that range (`wrapInt`), as the two's-complement addition of
  the target does.  The other variables stay small in every reachable session
  (`level ≤ 5`, `lives ≤ 3`, `timeout_counter < timeout + 80`, see the
  invariants below), and the operations on them are exact.  C division and
  remainder on `int` truncate toward zero (`Int.tdiv`, `Int.tmod`).
* `unsigned int` (the generator word `next`, and `size_t` on the 32-bit target)
  is a natural number reduced modulo `2^32`.
* The hardware is explicit state and explicit input: `leds` holds the value last
  written to each LED pin, and every call of `PollButtons` consumes one reading
  of the button pins.  A step of the machine receives the readings of the polls
  it performs as a stream `Nat → Pins`.
* `delay_ms` only lets real time pass and has no effect on the variables; it is
  left out.
* The polling loop of `WAIT_INPUT` is a C `for` loop that need not terminate
  (when `0 < period < 10` its increment is `0`), so it is run with fuel and
  returns `none` when the fuel runs out.
-/

namespace WhackAMole

/-! ## Constants -/

def MAX_PERIOD : Int := 1000
def MAX_TIMEOUT : Int := 15000
def PERIOD_MODIFIER : Int := 200
def TIMEOUT_MODIFIER : Int := 2000
def POLLING_READS : Int := 10
def SEED_INCREMENT : Int := 2
def NUMBER_LEVELS : Int := 10
def NUMBER_LIVES : Int := 3
def NO_BUTTON_PRESSED : Int := -1

/-- Number of entries of the `leds` table. -/
def NUMBER_LEDS : Nat := 3

/-- Number of entries of the `buttons` table. -/
def NUMBER_BUTTONS : Nat := 3

/-- Modelled from the spec: `gpio.h` is not part of the sources; `HIGH` is the
active pin level. -/
def HIGH : Int := 1

/-- Modelled from the spec: `gpio.h` is not part of the sources; `LOW` is the
inactive pin level. -/
def LOW : Int := 0

/-- Width of `unsigned int` and of `size_t` on the target. -/
def WORD : Nat := 2 ^ 32

/-- Conversion of an `int` to `unsigned int`. -/
def castUnsigned (x : Int) : Nat := (x % (WORD : Int)).toNat

/-- The largest value of a 32-bit `int`. -/
def INT_MAX : Int := 2147483647

/-- The smallest value of a 32-bit `int`. -/
def INT_MIN : Int := -2147483648

/-- The result of a 32-bit two's-complement operation whose exact result is
`x`: the value congruent to `x` modulo `2^32` between `INT_MIN` and
`INT_MAX`. -/
def wrapInt (x : Int) : Int := (x + 2147483648) % 4294967296 - 2147483648

/-! ## Data model -/

/-- The FSM states (`states_t`). -/
inductive states_t where
  | STARTUP
  | LEVEL_SETUP
  | LED_CHOOSE
  | WAIT_INPUT
  | CORRECT_INPUT
  | WRONG_INPUT
  | VICTORY
  | DEFEAT
  | TIMEOUT
  deriving DecidableEq, Repr

open states_t

/-- The control variables of `main.c`, the generator word `next`, and the value
last written to each LED pin. -/
structure Session where
  state : states_t
  lives : Int
  level : Int
  seed : Int
  period : Int
  timeout : Int
  points : Int
  current : Int
  timeout_counter : Int
  next : Nat
  leds : List Int
  deriving DecidableEq, Repr

/-- One reading of the button pins: the value `gpioGetPinValue` returns for
`buttons[i]`. -/
abbrev Pins := Nat → Int

/-- The variables as `main` initialises them before the first step (`next` is
initialised to `1` at its declaration; the LED pins have not been written). -/
def initial : Session :=
  { state := STARTUP, lives := 3, level := 1, seed := 0, period := 0, timeout := 0,
    points := 0, current := 0, timeout_counter := 0, next := 1, leds := [0, 0, 0] }

/-! ## Pseudo-random generator -/

/-- `srand`: the argument is an `unsigned int`. -/
def srand (seed : Nat) (s : Session) : Session :=
  { s with next := seed % WORD }

/-- `rand`: advances `next` and returns the result together with the new
variables. -/
def rand (s : Session) : Int × Session :=
  let next := (s.next * 1103515245 + 12345) % WORD
  (((next / 65536 % 32768 : Nat) : Int), { s with next := next })

/-! ## Access macros and I/O helpers -/

/-- `WRITE_LED(i, v)`. -/
def WRITE_LED (i : Nat) (v : Int) (s : Session) : Session :=
  { s with leds := s.leds.set i v }

/-- `READ_BUTTON(i)`: the buttons are active-low. -/
def READ_BUTTON (pins : Pins) (i : Nat) : Bool :=
  pins i == 0

/-- `GET_NEXT_LED()`: `rand() % NUMBER_LEDS`, computed in `size_t`. -/
def GET_NEXT_LED (s : Session) : Int × Session :=
  let r := rand s
  (((castUnsigned r.1 % NUMBER_LEDS : Nat) : Int), r.2)

/-- `CALCULATE_PTS(lvl, t)`. -/
def CALCULATE_PTS (lvl t : Int) : Int :=
  lvl * 10 + Int.tdiv t 1000

/-- The `for` loop of `PollButtons`: `n` iterations remain, `i` is the loop
variable. -/
def PollButtonsLoop (pins : Pins) : Nat → Nat → Int
  | 0, _ => NO_BUTTON_PRESSED
  | n + 1, i => if READ_BUTTON pins i then (i : Int) else PollButtonsLoop pins n (i + 1)

/-- `PollButtons`. -/
def PollButtons (pins : Pins) : Int :=
  PollButtonsLoop pins NUMBER_BUTTONS 0

/-- The `for` loop of `TurnOnLed`. -/
def TurnOnLedLoop (led : Int) : Nat → Nat → Session → Session
  | 0, _, s => s
  | n + 1, i, s =>
    TurnOnLedLoop led n (i + 1) (WRITE_LED i (if (i : Int) = led then HIGH else LOW) s)

/-- `TurnOnLed`. -/
def TurnOnLed (led : Int) (s : Session) : Session :=
  TurnOnLedLoop led NUMBER_LEDS 0 s

/-- The `for` loop of `WriteAllLeds`. -/
def WriteAllLedsLoop (value : Int) : Nat → Nat → Session → Session
  | 0, _, s => s
  | n + 1, i, s => WriteAllLedsLoop value n (i + 1) (WRITE_LED i value s)

/-- `WriteAllLeds`. -/
def WriteAllLeds (value : Int) (s : Session) : Session :=
  WriteAllLedsLoop value NUMBER_LEDS 0 s

/-! ## The state machine -/

/-- The body of the polling loop of `WAIT_INPUT` for one slice.  The flag is
`true` when the slice leaves the loop with `break`. -/
def waitSlice (pins : Pins) (s : Session) : Session × Bool :=
  let button_pressed := PollButtons pins
  if button_pressed = s.current then
    ({ s with state := CORRECT_INPUT }, true)
  else if s.timeout_counter ≥ s.timeout then
    ({ s with state := TIMEOUT }, true)
  else if button_pressed ≠ NO_BUTTON_PRESSED then
    ({ s with state := WRONG_INPUT }, true)
  else
    ({ s with state := LED_CHOOSE,
              timeout_counter := s.timeout_counter + Int.tdiv s.period POLLING_READS }, false)

/-- The polling loop of `WAIT_INPUT`: `i` is the loop variable, `k` counts the
polls already made in this step. -/
def waitLoop (polls : Nat → Pins) : Nat → Int → Nat → Session → Option Session
  | 0, i, _, s => if i < s.period then none else some s
  | fuel + 1, i, k, s =>
    if i < s.period then
      let r := waitSlice (polls k) s
      if r.2 then some r.1
      else waitLoop polls fuel (i + Int.tdiv s.period POLLING_READS) (k + 1) r.1
    else some s

/-- One call of `finiteStateMachine`. -/
def finiteStateMachine (fuel : Nat) (polls : Nat → Pins) (s : Session) : Option Session :=
  match s.state with
  | STARTUP =>
    let s1 : Session :=
      { s with level := 1, lives := NUMBER_LIVES, seed := wrapInt (s.seed + SEED_INCREMENT) }
    let s2 : Session :=
      TurnOnLed ((castUnsigned (Int.tdiv s1.seed SEED_INCREMENT) % NUMBER_LEDS : Nat) : Int) s1
    if PollButtons (polls 0) ≠ NO_BUTTON_PRESSED then
      some { s2 with state := LEVEL_SETUP }
    else
      some s2
  | LEVEL_SETUP =>
    let s1 : Session :=
      { s with period := MAX_PERIOD - PERIOD_MODIFIER * s.level,
               timeout := MAX_TIMEOUT - TIMEOUT_MODIFIER * s.level,
               timeout_counter := 0 }
    let s2 : Session := srand (castUnsigned s1.seed) s1
    some { s2 with state := LED_CHOOSE }
  | LED_CHOOSE =>
    let r := GET_NEXT_LED s
    let s1 : Session := { r.2 with current := r.1 }
    let s2 : Session := TurnOnLed s1.current s1
    some { s2 with state := WAIT_INPUT }
  | WAIT_INPUT =>
    waitLoop polls fuel 0 0 s
  | CORRECT_INPUT =>
    let s1 : Session := WriteAllLeds HIGH s
    let level_points := CALCULATE_PTS s1.level (s1.timeout - s1.timeout_counter)
    let s2 : Session :=
      { s1 with points := wrapInt (s1.points + level_points), level := s1.level + 1 }
    if s2.level > NUMBER_LEVELS then
      some { s2 with state := VICTORY }
    else
      some { s2 with state := LEVEL_SETUP }
  | WRONG_INPUT =>
    let s1 : Session := WriteAllLeds LOW s
    let s2 : Session := { s1 with lives := s1.lives - 1 }
    if s2.lives = 0 then
      some { s2 with state := DEFEAT }
    else
      some { s2 with state := LEVEL_SETUP }
  | TIMEOUT =>
    let s1 : Session := WriteAllLeds LOW s
    let s2 : Session := { s1 with state := STARTUP, lives := s1.lives - 1 }
    if s2.lives = 0 then
      some { s2 with state := DEFEAT }
    else
      some { s2 with state := LEVEL_SETUP }
  | DEFEAT =>
    let s1 : Session := WriteAllLeds LOW s
    some { s1 with state := STARTUP }
  | VICTORY =>
    let s1 : Session := WriteAllLeds HIGH s
    some { s1 with state := STARTUP }

/-- The sessions the program can be in between two calls of
`finiteStateMachine`, under any button readings. -/
inductive Reachable : Session → Prop where
  | init : Reachable initial
  | step {s t : Session} (fuel : Nat) (polls : Nat → Pins) :
      Reachable s → finiteStateMachine fuel polls s = some t → Reachable t

/-! ## Executions -/

/-- A run of the main loop: one call of `finiteStateMachine` per element of the
list, each with the button readings of its polls. -/
def run (fuel : Nat) : List (Nat → Pins) → Session → Option Session
  | [], s => some s
  | p :: ps, s => (finiteStateMachine fuel p s).bind (run fuel ps)

/-- The number of steps of a run that are taken from a state satisfying `c`. -/
def countSteps (fuel : Nat) (c : states_t → Bool) : List (Nat → Pins) → Session → Nat
  | [], _ => 0
  | p :: ps, s =>
    (if c s.state then 1 else 0) +
      (match finiteStateMachine fuel p s with
        | some t => countSteps fuel c ps t
        | none => 0)

/-- The states whose step decrements `lives`. -/
def isFailure (st : states_t) : Bool :=
  st = WRONG_INPUT || st = TIMEOUT

/-- The state whose step resets `level` and `lives`. -/
def isStartup (st : states_t) : Bool :=
  st = STARTUP

/-- The targets of `k` successive executions of the `LED_CHOOSE` case. -/
def drawTargets (fuel : Nat) (polls : Nat → Pins) : Nat → Session → List Int
  | 0, _ => []
  | k + 1, s =>
    match finiteStateMachine fuel polls { s with state := LED_CHOOSE } with
    | some t => t.current :: drawTargets fuel polls k t
    | none => []

/-! ## Sample inputs -/

/-- No button pressed: every pin reads high. -/
def idlePins : Pins := fun _ => 1

/-- Only button `b` pressed. -/
def pressPins (b : Nat) : Pins := fun i => if i = b then 0 else 1

/-- A step during which no button is pressed. -/
def idle : Nat → Pins := fun _ => idlePins

/-- A step during which button `b` is held down. -/
def press (b : Nat) : Nat → Pins := fun _ => pressPins b

/-- The session of the scoring example of the specification. -/
def scoringExample : Session :=
  { initial with state := CORRECT_INPUT, level := 3, timeout := 9000, timeout_counter := 2000 }

/-- The invariant of the life counter: `lives` is between 0 and `NUMBER_LIVES`,
and it is 0 only in `DEFEAT` and in the `STARTUP` that follows it. -/
def livesOK (s : Session) : Prop :=
  0 ≤ s.lives ∧ s.lives ≤ NUMBER_LIVES ∧ (s.lives = 0 → s.state = DEFEAT ∨ s.state = STARTUP)

/-- The invariant of the level counter: `level` is between 1 and 5, it is at
most 4 when a correct press is about to be rewarded, `period` is the budget of
the current level while a round is played, and `VICTORY` is not entered. -/
def levelOK (s : Session) : Prop :=
  1 ≤ s.level ∧ s.level ≤ 5 ∧
  (s.state = CORRECT_INPUT → s.level ≤ 4) ∧
  (s.state = LED_CHOOSE ∨ s.state = WAIT_INPUT →
    s.period = MAX_PERIOD - PERIOD_MODIFIER * s.level) ∧
  s.state ≠ VICTORY

/-- A session waiting for input in level 1 with target 2; the seed is 0, so the
first target drawn after the next `LEVEL_SETUP` is 0. -/
def waitingExample : Session :=
  { initial with state := WAIT_INPUT, period := 800, timeout := 13000, current := 2 }

/-- Two failed rounds from `waitingExample`: button 1 is pressed while the
target is 2 and then while it is 0, and the button is held down at the third
sample again. -/
def twoFailures : List (Nat → Pins) :=
  [press 1, idle, idle, idle, press 1, idle, idle, idle, press 1]

/-- A session about to reward a correct press in level 10. -/
def lastLevelExample : Session :=
  { initial with state := CORRECT_INPUT, level := 10, period := -1000, timeout := -5000 }

/-- A session left in `STARTUP` by a lost game played at a late level. -/
def restartExample : Session :=
  { initial with lives := 0, level := 4, seed := 10, points := 60 }

/-- The first of two sessions about to set up a level with the same seed and
nothing else in common: a fresh game. -/
def seededExample₁ : Session :=
  { initial with state := LEVEL_SETUP, seed := 2 }

/-- The second session with seed 2: in the middle of a game, with a generator
word left over from earlier draws. -/
def seededExample₂ : Session :=
  { initial with state := LEVEL_SETUP, seed := 2, level := 4, lives := 1, points := 90,
                 timeout_counter := 640, next := 2207042835, current := 1 }

/-- The session reached from the initial one by four rounds won at the first
sample: seventeen steps with button 2 held down. -/
def levelFiveExample : Session :=
  { state := LEVEL_SETUP, lives := 3, level := 5, seed := 2, period := 200, timeout := 7000,
    points := 140, current := 2, timeout_counter := 0, next := 2207042835, leds := [1, 1, 1] }

/-- The session reached from the initial one by starting a game with button 0
and keeping it pressed while the target is 2. -/
def wrongPressExample : Session :=
  { state := WRONG_INPUT, lives := 3, level := 1, seed := 2, period := 800, timeout := 13000,
    points := 0, current := 2, timeout_counter := 0, next := 2207042835, leds := [0, 0, 1] }

/-- The invariant of the clock: `timeout_counter` and `period` are not
negative, `period` is at most 800, and `timeout_counter` is less than one slice
above `timeout`, except before the first `LEVEL_SETUP`, when both are still
0. -/
def timeOK (s : Session) : Prop :=
  0 ≤ s.timeout_counter ∧ 0 ≤ s.period ∧ s.period ≤ 800 ∧
  (s.timeout_counter < s.timeout + Int.tdiv s.period POLLING_READS ∨
    (s.timeout_counter = 0 ∧ s.timeout = 0 ∧ (s.state = STARTUP ∨ s.state = LEVEL_SETUP)))

/-- The invariant of the board: the target is a channel index and there are
`NUMBER_LEDS` LED pins. -/
def boardOK (s : Session) : Prop :=
  0 ≤ s.current ∧ s.current < NUMBER_LEDS ∧ s.leds.length = NUMBER_LEDS

/-- The session after `j` idle slices of the polling loop started in `s`. -/
def afterIdle (j : Nat) (s : Session) : Session :=
  if j = 0 then s
  else { s with state := LED_CHOOSE,
                timeout_counter := s.timeout_counter + j * Int.tdiv s.period POLLING_READS }

/-- A step whose first `n` samples find no button pressed and whose later
samples find button `b` held down. -/
def pressAfter (n b : Nat) : Nat → Pins :=
  fun k => if k < n then idlePins else pressPins b

/-- Level 1 played without touching the buttons after the start: seventeen
rounds of ten idle slices bring `timeout_counter` to 13040. -/
def overtimeRun : List (Nat → Pins) :=
  press 0 :: List.replicate 35 idle

/-- The session reached by `overtimeRun`: the timeout of 13000 is detected at
`timeout_counter = 13040`. -/
def overtimeExample : Session :=
  { state := TIMEOUT, lives := 3, level := 1, seed := 2, period := 800, timeout := 13000,
    points := 0, current := 0, timeout_counter := 13040, next := 1167270147,
    leds := [1, 0, 0] }

/-- As `overtimeRun`, but the target (button 0) is pressed at the fourth sample
of the last step, when `timeout_counter` is already 13040. -/
def lateCorrectRun : List (Nat → Pins) :=
  press 0 :: List.replicate 34 idle ++ [pressAfter 3 0]

/-- The session reached by `lateCorrectRun`. -/
def lateCorrectExample : Session :=
  { state := CORRECT_INPUT, lives := 3, level := 1, seed := 2, period := 800,
    timeout := 13000, points := 0, current := 0, timeout_counter := 13040,
    next := 1167270147, leds := [1, 0, 0] }

/-- The session reached from the initial one by four rounds won at the first
sample and two more steps: level 5 is set up and its target is lit. -/
def stuckExample : Session :=
  { state := WAIT_INPUT, lives := 3, level := 5, seed := 2, period := 0, timeout := 5000,
    points := 140, current := 2, timeout_counter := 0, next := 2207042835,
    leds := [0, 0, 1] }

/-- The session reached from the initial one by starting a game and letting the
first round of ten slices pass: a new target is about to be drawn. -/
def rerollExample : Session :=
  { state := LED_CHOOSE, lives := 3, level := 1, seed := 2, period := 800, timeout := 13000,
    points := 0, current := 2, timeout_counter := 800, next := 2207042835,
    leds := [0, 0, 1] }

/-- The invariant of the two wrapping counters: `seed` and `points` are values
of a 32-bit `int`. -/
def wordOK (s : Session) : Prop :=
  INT_MIN ≤ s.seed ∧ s.seed ≤ INT_MAX ∧ INT_MIN ≤ s.points ∧ s.points ≤ INT_MAX

/-- A correct press in level 1 with a score 7 below `INT_MAX`. -/
def fullScoreExample : Session :=
  { initial with state := CORRECT_INPUT, period := 800, timeout := 13000,
                 points := 2147483640 }

/-- An idle pass with the seed 1 below `INT_MAX`. -/
def fullSeedExample : Session :=
  { initial with seed := 2147483646 }

/-! ## Basic facts about the helpers -/

theorem wrapInt_range (x : Int) : INT_MIN ≤ wrapInt x ∧ wrapInt x ≤ INT_MAX := by
  simp only [wrapInt, INT_MIN, INT_MAX]
  omega

theorem wrapInt_of_range (x : Int) (h0 : INT_MIN ≤ x) (h1 : x ≤ INT_MAX) : wrapInt x = x := by
  simp only [wrapInt, INT_MIN, INT_MAX] at *
  omega

theorem wrapInt_add_wrap (a b : Int) : wrapInt (wrapInt a + b) = wrapInt (a + b) := by
  simp only [wrapInt]
  omega

theorem wrapInt_congruent (x : Int) : (wrapInt x - x) % 4294967296 = 0 := by
  simp only [wrapInt]
  omega


theorem TurnOnLed_eq (led : Int) (s : Session) :
    TurnOnLed led s = { s with leds := (TurnOnLed led s).leds } := rfl

theorem WriteAllLeds_eq (value : Int) (s : Session) :
    WriteAllLeds value s = { s with leds := (WriteAllLeds value s).leds } := rfl

/-! ## The step taken from each state, in closed form -/

theorem GET_NEXT_LED_snd (s : Session) :
    (GET_NEXT_LED s).2 = { s with next := (s.next * 1103515245 + 12345) % WORD } := rfl

theorem step_STARTUP (fuel : Nat) (polls : Nat → Pins) (s : Session) (hs : s.state = STARTUP) :
    finiteStateMachine fuel polls s = some
      { s with
        state := if PollButtons (polls 0) ≠ NO_BUTTON_PRESSED then LEVEL_SETUP else STARTUP,
        level := 1, lives := NUMBER_LIVES, seed := wrapInt (s.seed + SEED_INCREMENT),
        leds := (TurnOnLed ((castUnsigned (Int.tdiv (wrapInt (s.seed + SEED_INCREMENT)) SEED_INCREMENT)
          % NUMBER_LEDS : Nat) : Int) s).leds } := by
  cases s
  dsimp only at hs
  subst hs
  simp only [finiteStateMachine]
  split <;> rfl

theorem step_LEVEL_SETUP (fuel : Nat) (polls : Nat → Pins) (s : Session)
    (hs : s.state = LEVEL_SETUP) :
    finiteStateMachine fuel polls s = some
      { s with
        state := LED_CHOOSE,
        period := MAX_PERIOD - PERIOD_MODIFIER * s.level,
        timeout := MAX_TIMEOUT - TIMEOUT_MODIFIER * s.level,
        timeout_counter := 0,
        next := castUnsigned s.seed % WORD } := by
  simp only [finiteStateMachine, hs]
  rfl

theorem step_LED_CHOOSE (fuel : Nat) (polls : Nat → Pins) (s : Session)
    (hs : s.state = LED_CHOOSE) :
    finiteStateMachine fuel polls s = some
      { s with
        state := WAIT_INPUT,
        current := (GET_NEXT_LED s).1,
        next := (s.next * 1103515245 + 12345) % WORD,
        leds := (TurnOnLed (GET_NEXT_LED s).1 s).leds } := by
  simp only [finiteStateMachine, hs, GET_NEXT_LED_snd]
  generalize (GET_NEXT_LED s).1 = x
  rfl

theorem step_WAIT_INPUT (fuel : Nat) (polls : Nat → Pins) (s : Session)
    (hs : s.state = WAIT_INPUT) :
    finiteStateMachine fuel polls s = waitLoop polls fuel 0 0 s := by
  simp only [finiteStateMachine, hs]

theorem step_CORRECT_INPUT (fuel : Nat) (polls : Nat → Pins) (s : Session)
    (hs : s.state = CORRECT_INPUT) :
    finiteStateMachine fuel polls s = some
      { s with
        state := if s.level + 1 > NUMBER_LEVELS then VICTORY else LEVEL_SETUP,
        points := wrapInt (s.points + CALCULATE_PTS s.level (s.timeout - s.timeout_counter)),
        level := s.level + 1,
        leds := (WriteAllLeds HIGH s).leds } := by
  simp only [finiteStateMachine, hs]
  by_cases h : s.level + 1 > NUMBER_LEVELS
  · rw [if_pos (show (WriteAllLeds HIGH s).level + 1 > NUMBER_LEVELS from h), if_pos h]; rfl
  · rw [if_neg (show ¬ (WriteAllLeds HIGH s).level + 1 > NUMBER_LEVELS from h), if_neg h]; rfl

theorem step_WRONG_INPUT (fuel : Nat) (polls : Nat → Pins) (s : Session)
    (hs : s.state = WRONG_INPUT) :
    finiteStateMachine fuel polls s = some
      { s with
        state := if s.lives - 1 = 0 then DEFEAT else LEVEL_SETUP,
        lives := s.lives - 1,
        leds := (WriteAllLeds LOW s).leds } := by
  simp only [finiteStateMachine, hs]
  by_cases h : s.lives - 1 = 0
  · rw [if_pos (show (WriteAllLeds LOW s).lives - 1 = 0 from h), if_pos h]; rfl
  · rw [if_neg (show ¬ (WriteAllLeds LOW s).lives - 1 = 0 from h), if_neg h]; rfl

theorem step_TIMEOUT (fuel : Nat) (polls : Nat → Pins) (s : Session)
    (hs : s.state = TIMEOUT) :
    finiteStateMachine fuel polls s = some
      { s with
        state := if s.lives - 1 = 0 then DEFEAT else LEVEL_SETUP,
        lives := s.lives - 1,
        leds := (WriteAllLeds LOW s).leds } := by
  simp only [finiteStateMachine, hs]
  by_cases h : s.lives - 1 = 0
  · rw [if_pos (show (WriteAllLeds LOW s).lives - 1 = 0 from h), if_pos h]; rfl
  · rw [if_neg (show ¬ (WriteAllLeds LOW s).lives - 1 = 0 from h), if_neg h]; rfl

theorem step_DEFEAT (fuel : Nat) (polls : Nat → Pins) (s : Session) (hs : s.state = DEFEAT) :
    finiteStateMachine fuel polls s = some
      { s with state := STARTUP, leds := (WriteAllLeds LOW s).leds } := by
  simp only [finiteStateMachine, hs]
  rfl

theorem step_VICTORY (fuel : Nat) (polls : Nat → Pins) (s : Session) (hs : s.state = VICTORY) :
    finiteStateMachine fuel polls s = some
      { s with state := STARTUP, leds := (WriteAllLeds HIGH s).leds } := by
  simp only [finiteStateMachine, hs]
  rfl

theorem run_append (fuel : Nat) (ps qs : List (Nat → Pins)) (s : Session) :
    run fuel (ps ++ qs) s = (run fuel ps s).bind (run fuel qs) := by
  induction ps generalizing s with
  | nil => simp [run]
  | cons p ps ih =>
    simp only [List.cons_append, run]
    cases finiteStateMachine fuel p s with
    | none => simp
    | some t => simpa using ih t

theorem Reachable.run {s t : Session} (fuel : Nat) (ps : List (Nat → Pins))
    (hs : Reachable s) (h : run fuel ps s = some t) : Reachable t := by
  induction ps generalizing s with
  | nil =>
    simp only [WhackAMole.run, Option.some.injEq] at h
    exact h ▸ hs
  | cons p ps ih =>
    simp only [WhackAMole.run] at h
    cases hp : finiteStateMachine fuel p s with
    | none => simp [hp] at h
    | some u =>
      rw [hp] at h
      exact ih (Reachable.step fuel p hs hp) h

/-! ## The buttons -/

theorem PollButtons_pressed_iff (pins : Pins) :
    PollButtons pins ≠ NO_BUTTON_PRESSED ↔ ∃ i, i < NUMBER_BUTTONS ∧ READ_BUTTON pins i = true := by
  simp only [PollButtons, PollButtonsLoop, NUMBER_BUTTONS, NO_BUTTON_PRESSED]
  constructor
  · intro h
    by_cases h0 : READ_BUTTON pins 0 = true
    · exact ⟨0, by decide, h0⟩
    · by_cases h1 : READ_BUTTON pins 1 = true
      · exact ⟨1, by decide, h1⟩
      · by_cases h2 : READ_BUTTON pins 2 = true
        · exact ⟨2, by decide, h2⟩
        · simp [h0, h1, h2] at h
  · rintro ⟨i, hi, hr⟩
    have hcases : i = 0 ∨ i = 1 ∨ i = 2 := by omega
    rcases hcases with rfl | rfl | rfl
    · simp [hr]
    · by_cases h0 : READ_BUTTON pins 0 = true <;> simp [h0, hr]
    · by_cases h0 : READ_BUTTON pins 0 = true <;>
        by_cases h1 : READ_BUTTON pins 1 = true <;> simp [h0, h1, hr]

/-! ## The polling loop -/

/-- What the polling loop can change: only `state` and `timeout_counter`; and it
changes `state` only if at least one slice ran, which needs `period > 0`. -/
theorem waitLoop_frame (polls : Nat → Pins) (fuel : Nat) (i : Int) (k : Nat) (s t : Session)
    (hi : 0 ≤ i) (h : waitLoop polls fuel i k s = some t) :
    t.lives = s.lives ∧ t.level = s.level ∧ t.seed = s.seed ∧ t.period = s.period ∧
    t.timeout = s.timeout ∧ t.points = s.points ∧ t.current = s.current ∧
    t.next = s.next ∧ t.leds = s.leds ∧
    (t = s ∨ (0 < s.period ∧ (t.state = LED_CHOOSE ∨ t.state = CORRECT_INPUT ∨
      t.state = TIMEOUT ∨ t.state = WRONG_INPUT))) := by
  induction fuel generalizing i k s with
  | zero =>
    simp only [waitLoop] at h
    split at h
    · simp at h
    · simp only [Option.some.injEq] at h
      subst h
      simp
  | succ n ih =>
    simp only [waitLoop] at h
    split at h
    · rename_i hlt
      have hpos : 0 < s.period := by omega
      split at h
      · simp only [Option.some.injEq] at h
        subst h
        simp only [waitSlice]
        split
        · simp [hpos]
        · split
          · simp [hpos]
          · split <;> simp [hpos]
      · rename_i hbrk
        have hstep : 0 ≤ i + Int.tdiv s.period POLLING_READS := by
          have := Int.tdiv_nonneg (le_of_lt hpos) (show (0 : Int) ≤ POLLING_READS by decide)
          omega
        have hr := ih _ _ _ hstep h
        have hfr : (waitSlice (polls k) s).1.lives = s.lives ∧
            (waitSlice (polls k) s).1.level = s.level ∧
            (waitSlice (polls k) s).1.seed = s.seed ∧
            (waitSlice (polls k) s).1.period = s.period ∧
            (waitSlice (polls k) s).1.timeout = s.timeout ∧
            (waitSlice (polls k) s).1.points = s.points ∧
            (waitSlice (polls k) s).1.current = s.current ∧
            (waitSlice (polls k) s).1.next = s.next ∧
            (waitSlice (polls k) s).1.leds = s.leds ∧
            (waitSlice (polls k) s).1.state = LED_CHOOSE := by
          simp only [waitSlice] at hbrk ⊢
          split
          · rename_i hc; simp [hc] at hbrk
          · rename_i hc
            split
            · rename_i hc2; simp [hc, hc2] at hbrk
            · rename_i hc2
              split
              · rename_i hc3; simp [hc, hc2, hc3] at hbrk
              · simp
        obtain ⟨f1, f2, f3, f4, f5, f6, f7, f8, f9, f10⟩ := hfr
        obtain ⟨r1, r2, r3, r4, r5, r6, r7, r8, r9, r10⟩ := hr
        refine ⟨r1.trans f1, r2.trans f2, r3.trans f3, r4.trans f4, r5.trans f5, r6.trans f6,
          r7.trans f7, r8.trans f8, r9.trans f9, Or.inr ⟨hpos, ?_⟩⟩
        rcases r10 with r10 | ⟨-, r10⟩
        · left; rw [r10]; exact f10
        · exact r10
    · simp only [Option.some.injEq] at h
      subst h
      simp

/-! ## The life counter -/

theorem livesOK_step (fuel : Nat) (polls : Nat → Pins) (s t : Session) (hs : livesOK s)
    (h : finiteStateMachine fuel polls s = some t) :
    livesOK t ∧
    (s.state ≠ STARTUP → t.lives = s.lives - (if isFailure s.state then 1 else 0)) := by
  obtain ⟨h0, h3, hz⟩ := hs
  simp only [NUMBER_LIVES] at h3
  rcases hst : s.state
  case STARTUP =>
    rw [step_STARTUP fuel polls s hst, Option.some.injEq] at h
    subst h
    simp [livesOK, NUMBER_LIVES]
  case LEVEL_SETUP =>
    rw [step_LEVEL_SETUP fuel polls s hst, Option.some.injEq] at h
    subst h
    have : s.lives ≠ 0 := fun hl => by simpa [hst] using hz hl
    simp only [livesOK, NUMBER_LIVES, isFailure]
    refine ⟨⟨h0, h3, fun hl => absurd hl this⟩, fun _ => by simp⟩
  case LED_CHOOSE =>
    rw [step_LED_CHOOSE fuel polls s hst, Option.some.injEq] at h
    subst h
    have : s.lives ≠ 0 := fun hl => by simpa [hst] using hz hl
    simp only [livesOK, NUMBER_LIVES, isFailure]
    refine ⟨⟨h0, h3, fun hl => absurd hl this⟩, fun _ => by simp⟩
  case WAIT_INPUT =>
    rw [step_WAIT_INPUT fuel polls s hst] at h
    obtain ⟨hl, -⟩ := waitLoop_frame polls fuel 0 0 s t le_rfl h
    have : s.lives ≠ 0 := fun hl => by simpa [hst] using hz hl
    simp only [livesOK, NUMBER_LIVES, isFailure, hl]
    refine ⟨⟨h0, h3, fun hl => absurd hl this⟩, fun _ => by simp⟩
  case CORRECT_INPUT =>
    rw [step_CORRECT_INPUT fuel polls s hst, Option.some.injEq] at h
    subst h
    have : s.lives ≠ 0 := fun hl => by simpa [hst] using hz hl
    simp only [livesOK, NUMBER_LIVES, isFailure]
    refine ⟨⟨h0, h3, fun hl => absurd hl this⟩, fun _ => by simp⟩
  case WRONG_INPUT =>
    rw [step_WRONG_INPUT fuel polls s hst, Option.some.injEq] at h
    subst h
    have : s.lives ≠ 0 := fun hl => by simpa [hst] using hz hl
    simp only [livesOK, NUMBER_LIVES, isFailure]
    refine ⟨⟨by omega, by omega, fun hl => by simp [hl]⟩, fun _ => by simp⟩
  case TIMEOUT =>
    rw [step_TIMEOUT fuel polls s hst, Option.some.injEq] at h
    subst h
    have : s.lives ≠ 0 := fun hl => by simpa [hst] using hz hl
    simp only [livesOK, NUMBER_LIVES, isFailure]
    refine ⟨⟨by omega, by omega, fun hl => by simp [hl]⟩, fun _ => by simp⟩
  case DEFEAT =>
    rw [step_DEFEAT fuel polls s hst, Option.some.injEq] at h
    subst h
    simp only [livesOK, NUMBER_LIVES, isFailure]
    refine ⟨⟨h0, h3, fun _ => by simp⟩, fun _ => by simp⟩
  case VICTORY =>
    rw [step_VICTORY fuel polls s hst, Option.some.injEq] at h
    subst h
    simp only [livesOK, NUMBER_LIVES, isFailure]
    refine ⟨⟨h0, h3, fun _ => by simp⟩, fun _ => by simp⟩

/-- Along a run without a `STARTUP` step, `lives` goes down by one per failure
step and by nothing else. -/
theorem run_lives (fuel : Nat) (ps : List (Nat → Pins)) (s u : Session) (hs : livesOK s)
    (hrun : run fuel ps s = some u) (hfree : countSteps fuel isStartup ps s = 0) :
    livesOK u ∧ u.lives = s.lives - (countSteps fuel isFailure ps s : Int) := by
  induction ps generalizing s with
  | nil =>
    simp only [run, Option.some.injEq] at hrun
    subst hrun
    simp [countSteps, hs]
  | cons p ps ih =>
    simp only [run] at hrun
    cases hp : finiteStateMachine fuel p s with
    | none => simp [hp] at hrun
    | some s1 =>
      rw [hp] at hrun
      simp only [Option.some_bind] at hrun
      simp only [countSteps, hp] at hfree ⊢
      have hne : s.state ≠ STARTUP := by
        intro hst
        simp [isStartup, hst] at hfree
      have hfree1 : countSteps fuel isStartup ps s1 = 0 := by omega
      obtain ⟨hok1, hl1⟩ := livesOK_step fuel p s s1 hs hp
      obtain ⟨hoku, hlu⟩ := ih s1 hok1 hrun hfree1
      refine ⟨hoku, ?_⟩
      rw [hlu, hl1 hne]
      by_cases hf : isFailure s.state = true
      · simp only [hf, if_true]; push_cast; ring
      · simp only [hf]; push_cast; simp

/-! ## C1: the level budgets -/

/-- C1 (evaluation of the code): the session with `state = LEVEL_SETUP` and
`level = 5` is reached from the initial state by seventeen steps with button 2
held down, and the `LEVEL_SETUP` step taken there computes `period = 0`, which
is not strictly positive; from level 8 on the computed `timeout` is negative as
well (`-1000` at level 8). -/
theorem level_setup_budget_not_positive :
    (∃ s, Reachable s ∧ s.state = LEVEL_SETUP ∧ s.level = 5 ∧
      ∃ t, finiteStateMachine 10 idle s = some t ∧ t.period = 0 ∧ t.timeout = 5000) ∧
    (∃ t, finiteStateMachine 10 idle { initial with state := LEVEL_SETUP, level := 8 } = some t ∧
      t.period = -600 ∧ t.timeout = -1000) := by
  refine ⟨?_, ?_⟩
  · have h : ∃ s, run 10 (List.replicate 17 (press 2)) initial = some s ∧
        s.state = LEVEL_SETUP ∧ s.level = 5 ∧
        ∃ t, finiteStateMachine 10 idle s = some t ∧ t.period = 0 ∧ t.timeout = 5000 :=
      ⟨_, rfl, rfl, rfl, _, rfl, rfl, rfl⟩
    obtain ⟨s, hrun, h1, h2, h3⟩ := h
    exact ⟨s, Reachable.run 10 _ Reachable.init hrun, h1, h2, h3⟩
  · exact ⟨_, rfl, rfl, rfl⟩

/-! ## C2: the scoring formula -/

/-- C2 (counterexample): in level 1 with `timeout = 13000`,
`timeout_counter = 0` and `points = 2147483640` the formula gives
`2147483640 + 10 + 13 = 2147483663`, which is not a value of a 32-bit `int`;
the step leaves `points = -2147483633`. -/
theorem scoring_wraps_past_int_max :
    (fullScoreExample.state = CORRECT_INPUT ∧ 0 ≤ fullScoreExample.timeout_counter ∧
      fullScoreExample.timeout_counter ≤ fullScoreExample.timeout) ∧
    fullScoreExample.points + fullScoreExample.level * 10 +
      Int.fdiv (fullScoreExample.timeout - fullScoreExample.timeout_counter) 1000
        = 2147483663 ∧
    finiteStateMachine 0 idle fullScoreExample = some
      { fullScoreExample with
        state := LEVEL_SETUP, level := 2, points := -2147483633, leds := [1, 1, 1] } := by
  refine ⟨⟨rfl, by decide, by decide⟩, by decide, by decide⟩

/-- C2 (amended): in state `CORRECT_INPUT` with `0 ≤ timeout_counter ≤ timeout`,
one step sets `points` to the 32-bit sum
`points + level * 10 + ⌊(timeout - timeout_counter) / 1000⌋`, with `level` the
value before the step: exactly that sum when it lies between `INT_MIN` and
`INT_MAX`, and the value congruent to it modulo `2^32` in that range otherwise.
The step leaves `lives`, `seed`, `period`, `timeout`, `timeout_counter` and
`current` unchanged. -/
theorem correct_input_scoring (fuel : Nat) (polls : Nat → Pins) (s : Session)
    (hs : s.state = CORRECT_INPUT) (_h0 : 0 ≤ s.timeout_counter)
    (h1 : s.timeout_counter ≤ s.timeout) :
    ∃ t, finiteStateMachine fuel polls s = some t ∧
      t.points =
        wrapInt (s.points + s.level * 10 + Int.fdiv (s.timeout - s.timeout_counter) 1000) ∧
      (INT_MIN ≤ s.points + s.level * 10 + Int.fdiv (s.timeout - s.timeout_counter) 1000 →
        s.points + s.level * 10 + Int.fdiv (s.timeout - s.timeout_counter) 1000 ≤ INT_MAX →
        t.points = s.points + s.level * 10 + Int.fdiv (s.timeout - s.timeout_counter) 1000) ∧
      INT_MIN ≤ t.points ∧ t.points ≤ INT_MAX ∧
      t.lives = s.lives ∧ t.seed = s.seed ∧ t.period = s.period ∧ t.timeout = s.timeout ∧
      t.timeout_counter = s.timeout_counter ∧ t.current = s.current := by
  have hd : Int.fdiv (s.timeout - s.timeout_counter) 1000
      = Int.tdiv (s.timeout - s.timeout_counter) 1000 :=
    Int.fdiv_eq_tdiv (by omega) (by decide)
  have hsum : s.points + CALCULATE_PTS s.level (s.timeout - s.timeout_counter)
      = s.points + s.level * 10 + Int.fdiv (s.timeout - s.timeout_counter) 1000 := by
    rw [hd, CALCULATE_PTS]; ring
  have hpts : wrapInt (s.points + CALCULATE_PTS s.level (s.timeout - s.timeout_counter))
      = wrapInt (s.points + s.level * 10 + Int.fdiv (s.timeout - s.timeout_counter) 1000) := by
    rw [hsum]
  refine ⟨_, step_CORRECT_INPUT fuel polls s hs, hpts, ?_, ?_, ?_, rfl, rfl, rfl, rfl, rfl, rfl⟩
  · intro hlo hhi
    exact hpts.trans (wrapInt_of_range _ hlo hhi)
  · exact (wrapInt_range _).1
  · exact (wrapInt_range _).2

/-- C2 (amended) at the example of the specification: `level = 3`,
`timeout = 9000`, `timeout_counter = 2000` awards exactly 37 points. -/
theorem correct_input_scoring_witness :
    (scoringExample.state = CORRECT_INPUT ∧ 0 ≤ scoringExample.timeout_counter ∧
      scoringExample.timeout_counter ≤ scoringExample.timeout) ∧
    ∃ t, finiteStateMachine 0 idle scoringExample = some t ∧
      t.points = scoringExample.points + 37 ∧ t.lives = scoringExample.lives ∧
      t.seed = scoringExample.seed ∧ t.period = scoringExample.period ∧
      t.timeout = scoringExample.timeout ∧
      t.timeout_counter = scoringExample.timeout_counter ∧
      t.current = scoringExample.current := by
  refine ⟨⟨rfl, by decide, by decide⟩, ?_⟩
  obtain ⟨t, ht, -, hp, -, -, hrest⟩ :=
    correct_input_scoring 0 idle scoringExample rfl (by decide) (by decide)
  refine ⟨t, ht, ?_, hrest⟩
  rw [hp (by decide) (by decide)]
  decide

/-! ## C3: the priority order inside a polling slice -/

/-- C3: a slice of the polling loop that is executed (`0 ≤ i < period`, so
`period > 0`) decides in the order match, timeout, wrong button, idle.  A match
ends the step in `CORRECT_INPUT` whatever the elapsed time; otherwise
`timeout_counter ≥ timeout` ends it in `TIMEOUT` whatever button is pressed;
otherwise a pressed button ends it in `WRONG_INPUT`; in these three cases only
`state` changes, so `timeout_counter` is not incremented.  Otherwise the loop
goes on with the next slice after adding `period / 10` to `timeout_counter`.
The step taken from `WAIT_INPUT` is this loop started at `i = 0`. -/
theorem wait_input_priority (fuel : Nat) (polls : Nat → Pins) (i : Int) (k : Nat)
    (s : Session) (hi0 : 0 ≤ i) (hi : i < s.period) :
    0 < s.period ∧
    (PollButtons (polls k) = s.current →
      waitLoop polls (fuel + 1) i k s = some { s with state := CORRECT_INPUT }) ∧
    (PollButtons (polls k) ≠ s.current → s.timeout_counter ≥ s.timeout →
      waitLoop polls (fuel + 1) i k s = some { s with state := TIMEOUT }) ∧
    (PollButtons (polls k) ≠ s.current → s.timeout_counter < s.timeout →
      PollButtons (polls k) ≠ NO_BUTTON_PRESSED →
      waitLoop polls (fuel + 1) i k s = some { s with state := WRONG_INPUT }) ∧
    (PollButtons (polls k) ≠ s.current → s.timeout_counter < s.timeout →
      PollButtons (polls k) = NO_BUTTON_PRESSED →
      waitLoop polls (fuel + 1) i k s =
        waitLoop polls fuel (i + Int.tdiv s.period POLLING_READS) (k + 1)
          { s with state := LED_CHOOSE,
                   timeout_counter := s.timeout_counter + Int.tdiv s.period POLLING_READS }) ∧
    (s.state = WAIT_INPUT →
      finiteStateMachine (fuel + 1) polls s = waitLoop polls (fuel + 1) 0 0 s) := by
  refine ⟨by omega, ?_, ?_, ?_, ?_, ?_⟩
  · intro hb
    simp [waitLoop, waitSlice, hi, hb]
  · intro hb ht
    simp [waitLoop, waitSlice, hi, hb, ht]
  · intro hb ht hp
    have ht' : ¬ s.timeout_counter ≥ s.timeout := by omega
    simp [waitLoop, waitSlice, hi, hb, ht', hp]
  · intro hb ht hp
    have ht' : ¬ s.timeout_counter ≥ s.timeout := by omega
    have hb' : ¬ NO_BUTTON_PRESSED = s.current := by rw [← hp]; exact hb
    simp [waitLoop, waitSlice, hi, hb', ht', hp]
  · intro hs
    simp only [finiteStateMachine, hs]

/-- C3 at a concrete slice: in level 1 with target 2, the first slice of a step
during which button 2 is held down ends the step in `CORRECT_INPUT`. -/
theorem wait_input_priority_witness :
    ((0 : Int) ≤ 0 ∧ 0 < waitingExample.period) ∧
    finiteStateMachine 10 (press 2) waitingExample =
      some { waitingExample with state := CORRECT_INPUT } := by
  refine ⟨⟨by decide, by decide⟩, ?_⟩
  obtain ⟨-, hc, -, -, -, hf⟩ :=
    wait_input_priority 9 (press 2) 0 0 waitingExample (by decide) (by decide)
  rw [hf rfl]
  exact hc (by decide)

/-! ## Invariants of the reachable sessions -/

theorem levelOK_step (fuel : Nat) (polls : Nat → Pins) (s t : Session) (hs : levelOK s)
    (h : finiteStateMachine fuel polls s = some t) : levelOK t := by
  obtain ⟨h1, h5, hc, hp, hv⟩ := hs
  rcases hst : s.state
  case STARTUP =>
    rw [step_STARTUP fuel polls s hst, Option.some.injEq] at h
    subst h
    refine ⟨le_rfl, (by decide : (1 : Int) ≤ 5), ?_, ?_, ?_⟩ <;> dsimp only <;> split <;> simp
  case LEVEL_SETUP =>
    rw [step_LEVEL_SETUP fuel polls s hst, Option.some.injEq] at h
    subst h
    exact ⟨h1, h5, by simp, fun _ => rfl, by simp⟩
  case LED_CHOOSE =>
    rw [step_LED_CHOOSE fuel polls s hst, Option.some.injEq] at h
    subst h
    exact ⟨h1, h5, by simp, fun _ => hp (Or.inl hst), by simp⟩
  case WAIT_INPUT =>
    rw [step_WAIT_INPUT fuel polls s hst] at h
    obtain ⟨-, hl, -, hper, -, -, -, -, -, hcase⟩ := waitLoop_frame polls fuel 0 0 s t le_rfl h
    have hperiod := hp (Or.inr hst)
    rcases hcase with rfl | ⟨hpos, hstate⟩
    · exact ⟨h1, h5, hc, hp, hv⟩
    · have h4 : s.level ≤ 4 := by
        simp only [MAX_PERIOD, PERIOD_MODIFIER] at hperiod
        omega
      refine ⟨hl ▸ h1, hl ▸ h5, fun _ => hl ▸ h4, fun _ => ?_, ?_⟩
      · rw [hper, hl]; exact hperiod
      · rcases hstate with e | e | e | e <;> simp [e]
  case CORRECT_INPUT =>
    rw [step_CORRECT_INPUT fuel polls s hst, Option.some.injEq] at h
    subst h
    have h4 := hc hst
    have hno : ¬ s.level + 1 > NUMBER_LEVELS := by simp only [NUMBER_LEVELS]; omega
    refine ⟨?_, ?_, ?_, ?_, ?_⟩ <;> simp only [if_neg hno] <;> first | omega | simp
  case WRONG_INPUT =>
    rw [step_WRONG_INPUT fuel polls s hst, Option.some.injEq] at h
    subst h
    refine ⟨h1, h5, ?_, ?_, ?_⟩ <;> dsimp only <;> split <;> simp
  case TIMEOUT =>
    rw [step_TIMEOUT fuel polls s hst, Option.some.injEq] at h
    subst h
    refine ⟨h1, h5, ?_, ?_, ?_⟩ <;> dsimp only <;> split <;> simp
  case DEFEAT =>
    rw [step_DEFEAT fuel polls s hst, Option.some.injEq] at h
    subst h
    exact ⟨h1, h5, by simp, by simp, by simp⟩
  case VICTORY =>
    exact absurd hst hv

theorem Reachable.invariant {s : Session} (h : Reachable s) : levelOK s ∧ livesOK s := by
  induction h with
  | init =>
    refine ⟨⟨by decide, by decide, ?_, ?_, ?_⟩, by decide, by decide, ?_⟩ <;> simp [initial]
  | step fuel polls _ hstep ih =>
    exact ⟨levelOK_step fuel polls _ _ ih.1 hstep, (livesOK_step fuel polls _ _ ih.2 hstep).1⟩

/-! ## C4: life exhaustion -/

/-- C4: take any session `s` with `lives = 3` and any run from it that contains
no `STARTUP` step and has brought the machine to `WRONG_INPUT` or `TIMEOUT`
(session `u`).  Then at most two failure steps (steps taken from `WRONG_INPUT`
or `TIMEOUT`, in any mix) have happened so far, the step from `u` is taken and
leaves `lives = 2` after the first failure and `lives = 1` after the second,
both with next state `LEVEL_SETUP`, and `lives = 0` with state `DEFEAT` after
the third; the `DEFEAT` step then goes to `STARTUP` with `lives` untouched.
In every session reachable from the initial state, a failure step finds
`lives ≥ 1`. -/
theorem three_failures_defeat (fuel : Nat) (ps : List (Nat → Pins)) (p q : Nat → Pins)
    (s u : Session) (h3 : s.lives = 3) (hrun : run fuel ps s = some u)
    (hfree : countSteps fuel isStartup ps s = 0)
    (hu : u.state = WRONG_INPUT ∨ u.state = TIMEOUT) :
    countSteps fuel isFailure ps s ≤ 2 ∧
    (∃ t, finiteStateMachine fuel p u = some t ∧
      t.lives = 2 - (countSteps fuel isFailure ps s : Int) ∧
      (countSteps fuel isFailure ps s < 2 → t.state = LEVEL_SETUP) ∧
      (countSteps fuel isFailure ps s = 2 → t.state = DEFEAT ∧ t.lives = 0 ∧
        ∃ v, finiteStateMachine fuel q t = some v ∧ v.state = STARTUP ∧ v.lives = 0)) ∧
    (∀ w, Reachable w → w.state = WRONG_INPUT ∨ w.state = TIMEOUT → 1 ≤ w.lives) := by
  have hs : livesOK s := ⟨by omega, by simp [NUMBER_LIVES, h3], fun h => by omega⟩
  obtain ⟨⟨hu0, -, huz⟩, hul⟩ := run_lives fuel ps s u hs hrun hfree
  have hupos : 1 ≤ u.lives := by
    rcases Int.lt_or_lt_of_ne (show u.lives ≠ 0 from fun h => by
      rcases huz h with e | e <;> rcases hu with e2 | e2 <;> simp [e] at e2) with h | h
    · omega
    · omega
  have hcount : countSteps fuel isFailure ps s ≤ 2 := by omega
  have hstep : finiteStateMachine fuel p u = some
      { u with state := if u.lives - 1 = 0 then DEFEAT else LEVEL_SETUP,
               lives := u.lives - 1, leds := (WriteAllLeds LOW u).leds } := by
    rcases hu with e | e
    · exact step_WRONG_INPUT fuel p u e
    · exact step_TIMEOUT fuel p u e
  refine ⟨hcount, ⟨_, hstep, ?_, ?_, ?_⟩, ?_⟩
  · show u.lives - 1 = _
    omega
  · intro hlt
    have : ¬ u.lives - 1 = 0 := by omega
    show (if u.lives - 1 = 0 then DEFEAT else LEVEL_SETUP) = _
    rw [if_neg this]
  · intro heq
    have h0 : u.lives - 1 = 0 := by omega
    refine ⟨?_, h0, ?_⟩
    · show (if u.lives - 1 = 0 then DEFEAT else LEVEL_SETUP) = _
      rw [if_pos h0]
    · refine ⟨_, step_DEFEAT fuel q _ ?_, rfl, h0⟩
      show (if u.lives - 1 = 0 then DEFEAT else LEVEL_SETUP) = _
      rw [if_pos h0]
  · intro w hw hws
    obtain ⟨-, hw0, -, hwz⟩ := hw.invariant
    rcases Int.lt_or_lt_of_ne (show w.lives ≠ 0 from fun h => by
      rcases hwz h with e | e <;> rcases hws with e2 | e2 <;> simp [e] at e2) with h | h
    · omega
    · omega

/-- C4 at a concrete run: from `waitingExample` two rounds fail on a wrong
button and a third wrong press is pending; the third failure step ends in
`DEFEAT` with `lives = 0`, and the `DEFEAT` step goes to `STARTUP`. -/
theorem three_failures_defeat_witness :
    (waitingExample.lives = 3 ∧
      (run 10 twoFailures waitingExample).map (·.state) = some WRONG_INPUT ∧
      countSteps 10 isStartup twoFailures waitingExample = 0 ∧
      countSteps 10 isFailure twoFailures waitingExample = 2) ∧
    ∃ u t v, run 10 twoFailures waitingExample = some u ∧
      finiteStateMachine 10 idle u = some t ∧ t.state = DEFEAT ∧ t.lives = 0 ∧
      finiteStateMachine 10 idle t = some v ∧ v.state = STARTUP ∧ v.lives = 0 := by
  have hrun : ∃ u, run 10 twoFailures waitingExample = some u ∧ u.state = WRONG_INPUT :=
    ⟨_, rfl, rfl⟩
  obtain ⟨u, hu, hst⟩ := hrun
  have hfree : countSteps 10 isStartup twoFailures waitingExample = 0 := by decide
  have hfail : countSteps 10 isFailure twoFailures waitingExample = 2 := by decide
  refine ⟨⟨rfl, by rw [hu]; simp [hst], hfree, hfail⟩, ?_⟩
  obtain ⟨-, ⟨t, ht, -, -, hthird⟩, -⟩ :=
    three_failures_defeat 10 twoFailures idle idle waitingExample u rfl hu hfree (Or.inl hst)
  obtain ⟨h1, h2, v, hv, h3, h4⟩ := hthird hfail
  exact ⟨u, t, v, hu, ht, h1, h2, hv, h3, h4⟩

/-! ## C5: the victory condition -/

/-- C5: in state `CORRECT_INPUT` one step increments `level` by exactly 1; the
next state is `VICTORY` exactly when the incremented level exceeds
`NUMBER_LEVELS` and is `LEVEL_SETUP` otherwise; for a level within
`NUMBER_LEVELS` that is exactly when the level before was 10, and from level 10
the step gives `level = 11` and `VICTORY`, not `LEVEL_SETUP`.  The step taken
from `VICTORY` always goes to `STARTUP`. -/
theorem correct_input_level_up (fuel : Nat) (polls : Nat → Pins) (s : Session)
    (hs : s.state = CORRECT_INPUT) :
    (∃ t, finiteStateMachine fuel polls s = some t ∧
      t.level = s.level + 1 ∧
      (t.state = VICTORY ↔ t.level > NUMBER_LEVELS) ∧
      (¬ t.level > NUMBER_LEVELS → t.state = LEVEL_SETUP) ∧
      (s.level ≤ NUMBER_LEVELS → (t.state = VICTORY ↔ s.level = 10)) ∧
      (s.level = 10 → t.level = 11 ∧ t.state = VICTORY ∧ t.state ≠ LEVEL_SETUP)) ∧
    (∀ w, w.state = VICTORY →
      ∃ v, finiteStateMachine fuel polls w = some v ∧ v.state = STARTUP) := by
  refine ⟨⟨_, step_CORRECT_INPUT fuel polls s hs, rfl, ?_, ?_, ?_, ?_⟩, ?_⟩
  · show (if s.level + 1 > NUMBER_LEVELS then VICTORY else LEVEL_SETUP) = VICTORY ↔ _
    by_cases h : s.level + 1 > NUMBER_LEVELS
    · simp [h]
    · simp [h]
  · intro h
    show (if s.level + 1 > NUMBER_LEVELS then VICTORY else LEVEL_SETUP) = _
    rw [if_neg h]
  · intro hle
    show (if s.level + 1 > NUMBER_LEVELS then VICTORY else LEVEL_SETUP) = VICTORY ↔ _
    simp only [NUMBER_LEVELS] at hle ⊢
    by_cases h : s.level + 1 > 10
    · simp only [h, if_true, true_iff]; omega
    · simp only [h, if_false]
      constructor
      · intro hv; cases hv
      · intro h10; omega
  · intro h10
    have h : s.level + 1 > NUMBER_LEVELS := by simp only [NUMBER_LEVELS]; omega
    refine ⟨?_, ?_, ?_⟩
    · show s.level + 1 = 11
      omega
    · show (if s.level + 1 > NUMBER_LEVELS then VICTORY else LEVEL_SETUP) = _
      rw [if_pos h]
    · show (if s.level + 1 > NUMBER_LEVELS then VICTORY else LEVEL_SETUP) ≠ _
      rw [if_pos h]
      decide
  · intro w hw
    exact ⟨_, step_VICTORY fuel polls w hw, rfl⟩

/-- C5 at level 10: the step gives `level = 11` and `VICTORY`, and the next step
goes to `STARTUP`. -/
theorem correct_input_level_up_witness :
    lastLevelExample.state = CORRECT_INPUT ∧
    ∃ t v, finiteStateMachine 0 idle lastLevelExample = some t ∧ t.level = 11 ∧
      t.state = VICTORY ∧ finiteStateMachine 0 idle t = some v ∧ v.state = STARTUP := by
  obtain ⟨⟨t, ht, -, -, -, -, h10⟩, hvic⟩ :=
    correct_input_level_up 0 idle lastLevelExample rfl
  obtain ⟨h11, hv, -⟩ := h10 rfl
  obtain ⟨v, hstep, hst⟩ := hvic t hv
  exact ⟨rfl, t, v, ht, h11, hv, hstep, hst⟩

/-! ## C6: the idle reset -/

/-- C6 (amended): in state `STARTUP`, whatever `level`, `lives` and `points`
were and whatever the buttons read, one step leaves `level = 1` and `lives = 3`
(`NUMBER_LIVES`), adds 2 (`SEED_INCREMENT`) to `seed` in 32-bit arithmetic
(exactly `seed + 2` when that lies between `INT_MIN` and `INT_MAX`, in
particular for `-2147483648 ≤ seed ≤ 2147483645`; the value congruent to it
modulo `2^32` in that range otherwise), and goes to `LEVEL_SETUP` exactly when
some button is pressed, staying in `STARTUP` otherwise. -/
theorem startup_reset (fuel : Nat) (polls : Nat → Pins) (s : Session)
    (hs : s.state = STARTUP) :
    ∃ t, finiteStateMachine fuel polls s = some t ∧
      t.level = 1 ∧ t.lives = 3 ∧ t.seed = wrapInt (s.seed + 2) ∧
      (INT_MIN ≤ s.seed + 2 → s.seed + 2 ≤ INT_MAX → t.seed = s.seed + 2) ∧
      INT_MIN ≤ t.seed ∧ t.seed ≤ INT_MAX ∧ (t.seed - (s.seed + 2)) % 4294967296 = 0 ∧
      (t.state = LEVEL_SETUP ↔ ∃ i, i < NUMBER_BUTTONS ∧ READ_BUTTON (polls 0) i = true) ∧
      ((¬ ∃ i, i < NUMBER_BUTTONS ∧ READ_BUTTON (polls 0) i = true) → t.state = STARTUP) := by
  refine ⟨_, step_STARTUP fuel polls s hs, rfl, rfl, rfl, ?_, ?_, ?_, ?_, ?_, ?_⟩
  · intro hlo hhi
    exact wrapInt_of_range _ hlo hhi
  · exact (wrapInt_range _).1
  · exact (wrapInt_range _).2
  · exact wrapInt_congruent _
  · rw [← PollButtons_pressed_iff]
    show (if PollButtons (polls 0) ≠ NO_BUTTON_PRESSED then LEVEL_SETUP else STARTUP) = _ ↔ _
    by_cases h : PollButtons (polls 0) ≠ NO_BUTTON_PRESSED
    · simp [h]
    · simp [h]
  · rw [← PollButtons_pressed_iff]
    intro h
    show (if PollButtons (polls 0) ≠ NO_BUTTON_PRESSED then LEVEL_SETUP else STARTUP) = _
    rw [if_neg h]

/-- C6 (amended) after a lost game: with `lives = 0` and `level = 4` left over,
an idle `STARTUP` step restores `level = 1` and `lives = 3`, moves `seed` from
10 to 12, and stays in `STARTUP`. -/
theorem startup_reset_witness :
    restartExample.state = STARTUP ∧
    ∃ t, finiteStateMachine 0 idle restartExample = some t ∧
      t.level = 1 ∧ t.lives = 3 ∧ t.seed = 12 ∧ t.state = STARTUP := by
  obtain ⟨t, ht, h1, h2, -, h3, -, -, -, -, h5⟩ := startup_reset 0 idle restartExample rfl
  refine ⟨rfl, t, ht, h1, h2, h3 (by decide) (by decide), h5 ?_⟩
  rintro ⟨i, hi, hr⟩
  simp [READ_BUTTON, idle, idlePins] at hr

/-! ## C7: the pseudo-random generator -/

/-- C7: `rand` replaces the generator word `next` by
`(next * 1103515245 + 12345) mod 2^32`, changes nothing else, and returns
`(next / 65536) mod 32768` of the new word, a value between 0 and 32767;
`srand` sets the word to its argument modulo `2^32` (the `int` seed of the
caller is converted to `unsigned int` first) and changes nothing else. -/
theorem rand_srand_contract (s : Session) (seed : Nat) (x : Int) :
    (rand s).2 = { s with next := (s.next * 1103515245 + 12345) % 2 ^ 32 } ∧
    (rand s).1 = (((rand s).2.next / 65536 % 32768 : Nat) : Int) ∧
    0 ≤ (rand s).1 ∧ (rand s).1 ≤ 32767 ∧
    (rand s).2.next < 2 ^ 32 ∧
    srand seed s = { s with next := seed % 2 ^ 32 } ∧
    srand (castUnsigned x) s = { s with next := (x % 2 ^ 32).toNat } := by
  refine ⟨rfl, rfl, ?_, ?_, ?_, rfl, ?_⟩
  · exact Int.natCast_nonneg _
  · show (((s.next * 1103515245 + 12345) % WORD / 65536 % 32768 : Nat) : Int) ≤ 32767
    have : (s.next * 1103515245 + 12345) % WORD / 65536 % 32768 < 32768 :=
      Nat.mod_lt _ (by decide)
    omega
  · show (s.next * 1103515245 + 12345) % WORD < 2 ^ 32
    exact Nat.mod_lt _ (by decide)
  · have hlt : castUnsigned x < WORD := by
      have h0 : (0 : Int) ≤ x % (WORD : Int) := Int.emod_nonneg _ (by decide)
      have h1 : x % (WORD : Int) < (WORD : Int) := Int.emod_lt_of_pos _ (by decide)
      simp only [castUnsigned]
      omega
    show ({ s with next := castUnsigned x % WORD } : Session) = _
    rw [Nat.mod_eq_of_lt hlt]
    rfl

/-! ## C8: target selection is a function of the seed -/

theorem GET_NEXT_LED_congr (s₁ s₂ : Session) (h : s₁.next = s₂.next) :
    (GET_NEXT_LED s₁).1 = (GET_NEXT_LED s₂).1 := by
  simp only [GET_NEXT_LED, rand, h]

/-- The targets drawn depend on the generator word only, and every draw is
made. -/
theorem drawTargets_congr (fuel₁ fuel₂ : Nat) (polls₁ polls₂ : Nat → Pins) (k : Nat)
    (s₁ s₂ : Session) (h : s₁.next = s₂.next) :
    drawTargets fuel₁ polls₁ k s₁ = drawTargets fuel₂ polls₂ k s₂ ∧
    (drawTargets fuel₁ polls₁ k s₁).length = k := by
  induction k generalizing s₁ s₂ with
  | zero => simp [drawTargets]
  | succ k ih =>
    have key : ∀ (fuel : Nat) (polls : Nat → Pins) (s : Session),
        ∃ t, finiteStateMachine fuel polls { s with state := LED_CHOOSE } = some t ∧
          t.current = (GET_NEXT_LED s).1 ∧
          t.next = (s.next * 1103515245 + 12345) % WORD :=
      fun fuel polls s =>
        ⟨_, step_LED_CHOOSE fuel polls { s with state := LED_CHOOSE } rfl, rfl, rfl⟩
    obtain ⟨t₁, e₁, c₁, n₁⟩ := key fuel₁ polls₁ s₁
    obtain ⟨t₂, e₂, c₂, n₂⟩ := key fuel₂ polls₂ s₂
    obtain ⟨hd, hlen⟩ := ih t₁ t₂ (by rw [n₁, n₂, h])
    simp only [drawTargets, e₁, e₂]
    refine ⟨?_, by simp only [List.length_cons, hlen]⟩
    rw [hd, c₁, c₂, GET_NEXT_LED_congr s₁ s₂ h]

/-- C8: two sessions in `LEVEL_SETUP` with the same `seed` take the
`LEVEL_SETUP` step and then draw the same `k` targets, for every `k`, whatever
their `level`, `lives`, `points`, `timeout_counter`, generator word, fuel and
button readings. -/
theorem targets_determined_by_seed (fuel₁ fuel₂ : Nat) (polls₁ polls₂ : Nat → Pins) (k : Nat)
    (s₁ s₂ : Session) (hseed : s₁.seed = s₂.seed)
    (h₁ : s₁.state = LEVEL_SETUP) (h₂ : s₂.state = LEVEL_SETUP) :
    ∃ t₁ t₂, finiteStateMachine fuel₁ polls₁ s₁ = some t₁ ∧
      finiteStateMachine fuel₂ polls₂ s₂ = some t₂ ∧
      drawTargets fuel₁ polls₁ k t₁ = drawTargets fuel₂ polls₂ k t₂ ∧
      (drawTargets fuel₁ polls₁ k t₁).length = k := by
  refine ⟨_, _, step_LEVEL_SETUP fuel₁ polls₁ s₁ h₁, step_LEVEL_SETUP fuel₂ polls₂ s₂ h₂, ?_⟩
  apply drawTargets_congr
  show castUnsigned s₁.seed % WORD = castUnsigned s₂.seed % WORD
  rw [hseed]

/-- C8 at seed 2: a fresh session and one in the middle of a game draw the same
five targets 2, 2, 0, 2, 1. -/
theorem targets_determined_by_seed_witness :
    (seededExample₁.seed = seededExample₂.seed ∧ seededExample₁.state = LEVEL_SETUP ∧
      seededExample₂.state = LEVEL_SETUP) ∧
    ∃ t₁ t₂, finiteStateMachine 10 idle seededExample₁ = some t₁ ∧
      finiteStateMachine 3 (press 1) seededExample₂ = some t₂ ∧
      drawTargets 10 idle 5 t₁ = [2, 2, 0, 2, 1] ∧
      drawTargets 3 (press 1) 5 t₂ = [2, 2, 0, 2, 1] := by
  refine ⟨⟨rfl, rfl, rfl⟩, ?_⟩
  obtain ⟨t₁, t₂, e₁, e₂, hd, -⟩ :=
    targets_determined_by_seed 10 3 idle (press 1) 5 seededExample₁ seededExample₂ rfl rfl rfl
  have hv : ∃ u, finiteStateMachine 10 idle seededExample₁ = some u ∧
      drawTargets 10 idle 5 u = [2, 2, 0, 2, 1] := ⟨_, rfl, by decide⟩
  obtain ⟨u, hu, hdu⟩ := hv
  have htu : t₁ = u := Option.some.inj (e₁.symm.trans hu)
  subst htu
  exact ⟨t₁, t₂, e₁, e₂, hdu, hd ▸ hdu⟩

/-! ## C9: the level stays in range -/

/-- C9: in every session reachable from the initial state, under any fuel and
any button readings, `1 ≤ level ≤ NUMBER_LEVELS`. -/
theorem level_within_bounds (s : Session) (h : Reachable s) :
    1 ≤ s.level ∧ s.level ≤ NUMBER_LEVELS := by
  obtain ⟨⟨h1, h5, -⟩, -⟩ := h.invariant
  exact ⟨h1, by simp only [NUMBER_LEVELS]; omega⟩

/-- C9 at a reachable session: after four rounds won, `level = 5`. -/
theorem level_within_bounds_witness :
    Reachable levelFiveExample ∧
    1 ≤ levelFiveExample.level ∧ levelFiveExample.level ≤ NUMBER_LEVELS :=
  have hr : Reachable levelFiveExample :=
    Reachable.run 10 (List.replicate 17 (press 2)) Reachable.init (by decide)
  ⟨hr, level_within_bounds levelFiveExample hr⟩

/-! ## C10: the life counter stays in range -/

/-- C10: in every session reachable from the initial state, under any fuel and
any button readings, `0 ≤ lives ≤ NUMBER_LIVES`, and `WRONG_INPUT` and `TIMEOUT`
are only entered with `lives ≥ 1`, so the decrement never makes `lives`
negative. -/
theorem lives_within_bounds (s : Session) (h : Reachable s) :
    0 ≤ s.lives ∧ s.lives ≤ NUMBER_LIVES ∧
    (s.state = WRONG_INPUT ∨ s.state = TIMEOUT → 1 ≤ s.lives) := by
  obtain ⟨-, h0, h3, hz⟩ := h.invariant
  refine ⟨h0, h3, fun hst => ?_⟩
  rcases Int.lt_or_lt_of_ne (show s.lives ≠ 0 from fun hl => by
    rcases hz hl with e | e <;> rcases hst with e2 | e2 <;> simp [e] at e2) with hlt | hlt
  · omega
  · omega

/-- C10 at a reachable session: a wrong press in the first round is entered
with `lives = 3`. -/
theorem lives_within_bounds_witness :
    Reachable wrongPressExample ∧
    0 ≤ wrongPressExample.lives ∧ wrongPressExample.lives ≤ NUMBER_LIVES ∧
    (wrongPressExample.state = WRONG_INPUT ∨ wrongPressExample.state = TIMEOUT →
      1 ≤ wrongPressExample.lives) :=
  have hr : Reachable wrongPressExample :=
    Reachable.run 10 [press 0, idle, idle, press 0] Reachable.init (by decide)
  ⟨hr, lives_within_bounds wrongPressExample hr⟩

/-! ## C13: polling the buttons -/

/-- C13: for every reading of the three button pins, `PollButtons` returns the
smallest index whose pin reads 0 (`READ_BUTTON` is true exactly when the pin
reads 0), returns `NO_BUTTON_PRESSED` exactly when no pin among 0, 1, 2 reads
0, and its result is one of -1, 0, 1, 2. -/
theorem PollButtons_first_active (pins : Pins) :
    (∀ i, i < NUMBER_BUTTONS → pins i = 0 → (∀ j, j < i → pins j ≠ 0) →
      PollButtons pins = (i : Int)) ∧
    (PollButtons pins = NO_BUTTON_PRESSED ↔ ∀ i, i < NUMBER_BUTTONS → pins i ≠ 0) ∧
    (PollButtons pins = -1 ∨ PollButtons pins = 0 ∨ PollButtons pins = 1 ∨
      PollButtons pins = 2) ∧
    (∀ i, READ_BUTTON pins i = true ↔ pins i = 0) := by
  have hread : ∀ i, READ_BUTTON pins i = true ↔ pins i = 0 := fun i => by
    simp [READ_BUTTON]
  have hval : PollButtons pins =
      if pins 0 = 0 then 0 else if pins 1 = 0 then 1 else if pins 2 = 0 then 2 else -1 := by
    simp only [PollButtons, PollButtonsLoop, NUMBER_BUTTONS, NO_BUTTON_PRESSED, READ_BUTTON,
      beq_iff_eq]
    rfl
  refine ⟨?_, ?_, ?_, hread⟩
  · intro i hi h0 hmin
    simp only [NUMBER_BUTTONS] at hi
    have hcases : i = 0 ∨ i = 1 ∨ i = 2 := by omega
    rcases hcases with rfl | rfl | rfl
    · simp [hval, h0]
    · have := hmin 0 (by decide)
      simp [hval, h0, this]
    · have h0' := hmin 0 (by decide)
      have h1' := hmin 1 (by decide)
      simp [hval, h0, h0', h1']
  · simp only [NUMBER_BUTTONS, NO_BUTTON_PRESSED]
    constructor
    · intro h i hi
      have hcases : i = 0 ∨ i = 1 ∨ i = 2 := by omega
      rw [hval] at h
      by_cases h0 : pins 0 = 0
      · simp [h0] at h
      · by_cases h1 : pins 1 = 0
        · simp [h0, h1] at h
        · by_cases h2 : pins 2 = 0
          · simp [h0, h1, h2] at h
          · rcases hcases with rfl | rfl | rfl <;> assumption
    · intro h
      simp [hval, h 0 (by decide), h 1 (by decide), h 2 (by decide)]
  · rw [hval]
    by_cases h0 : pins 0 = 0
    · simp [h0]
    · by_cases h1 : pins 1 = 0
      · simp [h0, h1]
      · by_cases h2 : pins 2 = 0 <;> simp [h0, h1, h2]

/-! ## C17: `TIMEOUT` behaves as `WRONG_INPUT` -/

theorem WriteAllLeds_leds (value : Int) (s : Session) :
    (WriteAllLeds value s).leds = ((s.leds.set 0 value).set 1 value).set 2 value := rfl

theorem WriteAllLeds_all (value : Int) (s : Session) (i : Nat) (hi : i < NUMBER_LEDS)
    (hlen : i < s.leds.length) : (WriteAllLeds value s).leds[i]? = some value := by
  simp only [NUMBER_LEDS] at hi
  rw [WriteAllLeds_leds]
  have hcases : i = 0 ∨ i = 1 ∨ i = 2 := by omega
  rcases hcases with rfl | rfl | rfl <;> simp [List.getElem?_set, hlen]

/-- C17: for every session, the step taken from `TIMEOUT` gives exactly the
session that the step taken from `WRONG_INPUT` gives on the same fields: every
LED pin written `LOW`, `lives` decremented by 1, next state `DEFEAT` if `lives`
became 0 and `LEVEL_SETUP` otherwise, every other field unchanged.  The
assignment `state = STARTUP` is overwritten: the step never ends in
`STARTUP`. -/
theorem timeout_same_as_wrong_input (fuel₁ fuel₂ : Nat) (polls₁ polls₂ : Nat → Pins)
    (s : Session) :
    finiteStateMachine fuel₁ polls₁ { s with state := TIMEOUT } =
      finiteStateMachine fuel₂ polls₂ { s with state := WRONG_INPUT } ∧
    ∃ t, finiteStateMachine fuel₁ polls₁ { s with state := TIMEOUT } = some t ∧
      t.lives = s.lives - 1 ∧
      (t.lives = 0 → t.state = DEFEAT) ∧ (t.lives ≠ 0 → t.state = LEVEL_SETUP) ∧
      t.state ≠ STARTUP ∧
      (∀ i, i < NUMBER_LEDS → i < s.leds.length → t.leds[i]? = some LOW) ∧
      t.leds.length = s.leds.length ∧
      t.level = s.level ∧ t.seed = s.seed ∧ t.period = s.period ∧ t.timeout = s.timeout ∧
      t.points = s.points ∧ t.current = s.current ∧
      t.timeout_counter = s.timeout_counter ∧ t.next = s.next := by
  have e₁ := step_TIMEOUT fuel₁ polls₁ { s with state := TIMEOUT } rfl
  have e₂ := step_WRONG_INPUT fuel₂ polls₂ { s with state := WRONG_INPUT } rfl
  refine ⟨by rw [e₁, e₂]; rfl, _, e₁, rfl, ?_, ?_, ?_, ?_, ?_,
    rfl, rfl, rfl, rfl, rfl, rfl, rfl, rfl⟩
  · intro h
    show (if s.lives - 1 = 0 then DEFEAT else LEVEL_SETUP) = _
    rw [if_pos h]
  · intro h
    show (if s.lives - 1 = 0 then DEFEAT else LEVEL_SETUP) = _
    rw [if_neg h]
  · show (if s.lives - 1 = 0 then DEFEAT else LEVEL_SETUP) ≠ _
    split <;> decide
  · intro i hi hlen
    exact WriteAllLeds_all LOW _ i hi hlen
  · show (WriteAllLeds LOW { s with state := TIMEOUT }).leds.length = _
    rw [WriteAllLeds_leds]
    simp

/-! ## C20: the polling loop terminates -/

/-- With a positive increment, fuel for the remaining distance is enough. -/
theorem waitLoop_terminates (polls : Nat → Pins) (n : Nat) (i : Int) (k : Nat) (s : Session)
    (hd : 0 < Int.tdiv s.period POLLING_READS)
    (hn : s.period ≤ i + n * Int.tdiv s.period POLLING_READS) :
    ∃ t, waitLoop polls n i k s = some t := by
  induction n generalizing i k s with
  | zero =>
    have : ¬ i < s.period := by simp at hn; omega
    exact ⟨s, by simp only [waitLoop, if_neg this]⟩
  | succ n ih =>
    simp only [waitLoop]
    split
    · split
      · exact ⟨_, rfl⟩
      · have hper : (waitSlice (polls k) s).1.period = s.period := by
          simp only [waitSlice]
          split
          · rfl
          · split
            · rfl
            · split <;> rfl
        apply ih
        · rw [hper]; exact hd
        · rw [hper]
          push_cast at hn
          linarith
    · exact ⟨s, rfl⟩

/-- The budgets of `LEVEL_SETUP` for an arbitrary level: a positive period is a
multiple of 200, so a tenth of it is positive. -/
theorem period_slice_pos (level period : Int)
    (hp : period = MAX_PERIOD - PERIOD_MODIFIER * level) (hpos : 0 < period) :
    0 < Int.tdiv period POLLING_READS ∧ 200 ≤ period ∧ (200 : Int) ∣ period ∧
    Int.tdiv period POLLING_READS * 10 = period := by
  simp only [MAX_PERIOD, PERIOD_MODIFIER] at hp
  have hdiv : Int.tdiv period POLLING_READS = period / 10 :=
    Int.tdiv_eq_ediv (le_of_lt hpos) (by decide)
  rw [hdiv]
  refine ⟨by omega, by omega, ⟨5 - level, by omega⟩, by omega⟩

/-- C20: for every integer level, with `period` as `LEVEL_SETUP` computes it,
the polling loop of a step taken from `WAIT_INPUT` ends within `POLLING_READS`
(10) iterations whatever the buttons read: fuel 10 always gives a result.  When
`period > 0` the increment `period / 10` is positive (`period` is then a
multiple of 200 and at least 200); when `period ≤ 0` the body is never entered:
the step needs no fuel and returns the session unchanged. -/
theorem polling_loop_terminates (polls : Nat → Pins) (level : Int) (s : Session)
    (hs : s.state = WAIT_INPUT) (hp : s.period = MAX_PERIOD - PERIOD_MODIFIER * level) :
    (∃ t, finiteStateMachine 10 polls s = some t) ∧
    (0 < s.period → 0 < Int.tdiv s.period POLLING_READS ∧ 200 ≤ s.period ∧
      (200 : Int) ∣ s.period) ∧
    (s.period ≤ 0 → finiteStateMachine 0 polls s = some s) := by
  refine ⟨?_, ?_, ?_⟩
  · rw [step_WAIT_INPUT 10 polls s hs]
    by_cases hpos : 0 < s.period
    · obtain ⟨hd, -, -, hten⟩ := period_slice_pos level s.period hp hpos
      apply waitLoop_terminates polls 10 0 0 s hd
      push_cast
      linarith
    · have : ¬ (0 : Int) < s.period := hpos
      exact ⟨s, by simp only [waitLoop, if_neg this]⟩
  · intro hpos
    obtain ⟨hd, h200, hdvd, -⟩ := period_slice_pos level s.period hp hpos
    exact ⟨hd, h200, hdvd⟩
  · intro hle
    rw [step_WAIT_INPUT 0 polls s hs]
    have : ¬ (0 : Int) < s.period := by omega
    simp only [waitLoop, if_neg this]

/-- C20 at level 1 with a button bouncing in: the step returns within fuel 10. -/
theorem polling_loop_terminates_witness :
    (waitingExample.state = WAIT_INPUT ∧
      waitingExample.period = MAX_PERIOD - PERIOD_MODIFIER * 1) ∧
    (∃ t, finiteStateMachine 10 (pressAfter 7 1) waitingExample = some t) ∧
    0 < Int.tdiv waitingExample.period POLLING_READS := by
  obtain ⟨h1, h2, -⟩ :=
    polling_loop_terminates (pressAfter 7 1) 1 waitingExample rfl (by decide)
  exact ⟨⟨rfl, by decide⟩, h1, (h2 (by decide)).1⟩

/-! ## C15: a round without input -/

theorem afterIdle_succ (j : Nat) (s : Session) :
    afterIdle j { s with state := LED_CHOOSE,
                         timeout_counter := s.timeout_counter + Int.tdiv s.period POLLING_READS }
      = afterIdle (j + 1) s := by
  unfold afterIdle
  by_cases hj : j = 0
  · subst hj
    simp
  · simp only [hj, if_false, Nat.succ_ne_zero]
    congr 1
    push_cast
    ring

/-- The loop run through `j` slices that find no button pressed, the target a
channel index and `timeout_counter` below `timeout`. -/
theorem waitLoop_idle (polls : Nat → Pins) (j fuel : Nat) (i : Int) (k : Nat) (s : Session)
    (hc : 0 ≤ s.current)
    (hidle : ∀ m, m < j → PollButtons (polls (k + m)) = NO_BUTTON_PRESSED)
    (hloop : ∀ m : Nat, m < j → i + m * Int.tdiv s.period POLLING_READS < s.period)
    (htime : ∀ m : Nat, m < j →
      s.timeout_counter + m * Int.tdiv s.period POLLING_READS < s.timeout) :
    waitLoop polls (fuel + j) i k s =
      waitLoop polls fuel (i + j * Int.tdiv s.period POLLING_READS) (k + j) (afterIdle j s) := by
  induction j generalizing i k s with
  | zero => simp [afterIdle]
  | succ j ih =>
    have hi : i < s.period := by simpa using hloop 0 (Nat.succ_pos j)
    have ht : ¬ s.timeout_counter ≥ s.timeout := by
      have := htime 0 (Nat.succ_pos j)
      simp at this
      omega
    have hb : PollButtons (polls k) = NO_BUTTON_PRESSED := by
      simpa using hidle 0 (Nat.succ_pos j)
    have hne : ¬ NO_BUTTON_PRESSED = s.current := by
      simp only [NO_BUTTON_PRESSED]; omega
    have hstep : waitLoop polls (fuel + j + 1) i k s =
        waitLoop polls (fuel + j) (i + Int.tdiv s.period POLLING_READS) (k + 1)
          { s with state := LED_CHOOSE,
                   timeout_counter := s.timeout_counter + Int.tdiv s.period POLLING_READS } := by
      simp [waitLoop, waitSlice, hi, hb, hne, ht]
    rw [← Nat.add_assoc, hstep, ih]
    · rw [afterIdle_succ]
      congr 1
      · push_cast; ring
      · omega
    · exact hc
    · intro m hm
      have := hidle (m + 1) (by omega)
      rwa [show k + 1 + m = k + (m + 1) by omega]
    · intro m hm
      have := hloop (m + 1) (by omega)
      push_cast at this
      show i + Int.tdiv s.period POLLING_READS + m * Int.tdiv s.period POLLING_READS < s.period
      linarith
    · intro m hm
      have := htime (m + 1) (by omega)
      push_cast at this
      show s.timeout_counter + Int.tdiv s.period POLLING_READS +
        m * Int.tdiv s.period POLLING_READS < s.timeout
      linarith

/-- C15: take a session in `WAIT_INPUT` whose `period` is the positive budget of
some level (levels 1 to 4) and whose target is a channel index, and a step in
which none of the first ten samples finds a button pressed and
`timeout_counter` is below `timeout` at each of them.  The step polls exactly
ten times (fuel 10 gives the result, fuel 9 does not), `period / 10` is added
to `timeout_counter` after each poll (after `j ≤ 10` polls the loop is at its
`j`-th slice with `j * (period / 10)` added), the total added is exactly
`period`, and the step ends in `LED_CHOOSE`. -/
theorem idle_round_polls_ten_times (polls : Nat → Pins) (level : Int) (s : Session)
    (hs : s.state = WAIT_INPUT) (hp : s.period = MAX_PERIOD - PERIOD_MODIFIER * level)
    (hpos : 0 < s.period) (hc : 0 ≤ s.current)
    (hidle : ∀ k, k < 10 → PollButtons (polls k) = NO_BUTTON_PRESSED)
    (htime : ∀ k : Nat, k < 10 →
      s.timeout_counter + k * Int.tdiv s.period POLLING_READS < s.timeout) :
    finiteStateMachine 10 polls s = some
      { s with state := LED_CHOOSE, timeout_counter := s.timeout_counter + s.period } ∧
    finiteStateMachine 9 polls s = none ∧
    (∀ j, j ≤ 10 → finiteStateMachine 10 polls s =
      waitLoop polls (10 - j) (j * Int.tdiv s.period POLLING_READS) j (afterIdle j s)) := by
  obtain ⟨hd, -, -, hten⟩ := period_slice_pos level s.period hp hpos
  have hgen : ∀ j fuel, j ≤ 10 → waitLoop polls (fuel + j) 0 0 s =
      waitLoop polls fuel (j * Int.tdiv s.period POLLING_READS) j (afterIdle j s) := by
    intro j fuel hj
    have h := waitLoop_idle polls j fuel 0 0 s hc
      (fun m hm => by simpa using hidle m (by omega))
      (fun m hm => by
        have : (m : Int) < 10 := by exact_mod_cast (show m < 10 by omega)
        nlinarith)
      (fun m hm => htime m (by omega))
    simpa using h
  refine ⟨?_, ?_, ?_⟩
  · rw [step_WAIT_INPUT 10 polls s hs, hgen 10 0 le_rfl]
    have hexit : ¬ ((10 : Nat) : Int) * Int.tdiv s.period POLLING_READS
        < (afterIdle 10 s).period := by
      show ¬ ((10 : Nat) : Int) * Int.tdiv s.period POLLING_READS < s.period
      push_cast
      omega
    simp only [waitLoop, if_neg hexit]
    have hsum : s.timeout_counter + ((10 : Nat) : Int) * Int.tdiv s.period POLLING_READS
        = s.timeout_counter + s.period := by
      push_cast
      omega
    have hafter : afterIdle 10 s = { s with
        state := LED_CHOOSE,
        timeout_counter :=
          s.timeout_counter + ((10 : Nat) : Int) * Int.tdiv s.period POLLING_READS } := rfl
    rw [hafter, hsum]
  · rw [step_WAIT_INPUT 9 polls s hs, hgen 9 0 (by decide)]
    have hin : ((9 : Nat) : Int) * Int.tdiv s.period POLLING_READS < (afterIdle 9 s).period := by
      show ((9 : Nat) : Int) * Int.tdiv s.period POLLING_READS < s.period
      push_cast
      omega
    simp only [waitLoop, if_pos hin]
  · intro j hj
    rw [step_WAIT_INPUT 10 polls s hs]
    have := hgen j (10 - j) hj
    rwa [Nat.sub_add_cancel hj] at this

/-- C15 at level 1: ten idle polls add 800 to `timeout_counter` and the step
ends in `LED_CHOOSE`; nine polls are not enough. -/
theorem idle_round_polls_ten_times_witness :
    (waitingExample.state = WAIT_INPUT ∧
      waitingExample.period = MAX_PERIOD - PERIOD_MODIFIER * 1 ∧
      0 < waitingExample.period ∧ 0 ≤ waitingExample.current) ∧
    finiteStateMachine 10 idle waitingExample = some
      { waitingExample with state := LED_CHOOSE, timeout_counter := 800 } ∧
    finiteStateMachine 9 idle waitingExample = none := by
  obtain ⟨h10, h9, -⟩ := idle_round_polls_ten_times idle 1 waitingExample rfl
    (by decide) (by decide) (by decide) (fun _ _ => rfl)
    (fun k hk => by
      have h80 : Int.tdiv waitingExample.period POLLING_READS = 80 := by decide
      have h0 : waitingExample.timeout_counter = 0 := rfl
      have h13 : waitingExample.timeout = 13000 := rfl
      rw [h80, h0, h13]
      omega)
  exact ⟨⟨rfl, by decide, by decide, by decide⟩, h10, h9⟩

/-! ## C16: when the target is drawn again -/

/-- C16 (counterexample): in level 1 with target 2, the first slice of a step
finds no button pressed while `timeout_counter < timeout`, and the second
sample, button 2, is judged against the same target 2 in the same step: the
step ends in `CORRECT_INPUT` with `current` and the generator word untouched,
so no target was drawn between the two samples. -/
theorem idle_slice_keeps_target :
    waitingExample.state = WAIT_INPUT ∧
    PollButtons (pressAfter 1 2 0) = NO_BUTTON_PRESSED ∧
    waitingExample.timeout_counter < waitingExample.timeout ∧
    PollButtons (pressAfter 1 2 1) = waitingExample.current ∧
    finiteStateMachine 10 (pressAfter 1 2) waitingExample =
      some { waitingExample with state := CORRECT_INPUT, timeout_counter := 80 } := by
  refine ⟨rfl, by decide, by decide, by decide, by decide⟩

/-- C16 (amended): a step taken from `WAIT_INPUT` never draws a target: it
leaves `current`, the generator word and the LEDs as they were, whatever the
buttons read.  After a first slice without input (`timeout_counter < timeout`)
the second sample is compared with the same target: if it matches, the step
ends in `CORRECT_INPUT` with one slice added to `timeout_counter`.  A new
target is drawn only by the step that follows a `WAIT_INPUT` step ended in
`LED_CHOOSE`. -/
theorem target_redrawn_once_per_step (fuel : Nat) (polls polls₂ : Nat → Pins) (s t : Session)
    (hs : s.state = WAIT_INPUT) (ht : finiteStateMachine fuel polls s = some t) :
    t.current = s.current ∧ t.next = s.next ∧ t.leds = s.leds ∧
    (0 < s.period → 2 ≤ fuel → PollButtons (polls 0) = NO_BUTTON_PRESSED → 0 ≤ s.current →
      s.timeout_counter < s.timeout → PollButtons (polls 1) = s.current →
      t = { s with state := CORRECT_INPUT,
                   timeout_counter := s.timeout_counter + Int.tdiv s.period POLLING_READS }) ∧
    (t.state = LED_CHOOSE →
      ∃ v, finiteStateMachine fuel polls₂ t = some v ∧ v.state = WAIT_INPUT ∧
        v.current = (GET_NEXT_LED t).1 ∧ v.next = (t.next * 1103515245 + 12345) % WORD) := by
  have hloop := ht
  rw [step_WAIT_INPUT fuel polls s hs] at hloop
  obtain ⟨-, -, -, -, -, -, hcur, hnext, hleds, -⟩ :=
    waitLoop_frame polls fuel 0 0 s t le_rfl hloop
  refine ⟨hcur, hnext, hleds, ?_, ?_⟩
  · intro hpos hfuel hb0 hc htime hb1
    obtain ⟨f, rfl⟩ : ∃ f, fuel = f + 2 := ⟨fuel - 2, by omega⟩
    have hne : ¬ NO_BUTTON_PRESSED = s.current := by
      simp only [NO_BUTTON_PRESSED]; omega
    have hnt : ¬ s.timeout_counter ≥ s.timeout := by omega
    have hd : Int.tdiv s.period POLLING_READS < s.period := by
      rw [Int.tdiv_eq_ediv (le_of_lt hpos) (by decide)]
      simp only [POLLING_READS]
      omega
    have h := hloop
    simp [waitLoop, waitSlice, hpos, hb0, hne, hnt, hd, hb1] at h
    exact h.symm
  · intro hst
    exact ⟨_, step_LED_CHOOSE fuel polls₂ t hst, rfl, rfl, rfl⟩

/-- C16 (amended) at level 1: a step of ten idle slices ends in `LED_CHOOSE`
with the generator word untouched, and only the next step advances it. -/
theorem target_redrawn_once_per_step_witness :
    (waitingExample.state = WAIT_INPUT ∧
      finiteStateMachine 10 idle waitingExample =
        some { waitingExample with state := LED_CHOOSE, timeout_counter := 800 }) ∧
    ∃ v, finiteStateMachine 10 idle
        { waitingExample with state := LED_CHOOSE, timeout_counter := 800 } = some v ∧
      v.state = WAIT_INPUT ∧ v.next = 1103527590 := by
  have hstep : finiteStateMachine 10 idle waitingExample =
      some { waitingExample with state := LED_CHOOSE, timeout_counter := 800 } := by decide
  obtain ⟨-, -, -, -, hdraw⟩ :=
    target_redrawn_once_per_step 10 idle idle waitingExample _ rfl hstep
  obtain ⟨v, hv, hst, -, hnext⟩ := hdraw rfl
  refine ⟨⟨rfl, hstep⟩, v, hv, hst, ?_⟩
  rw [hnext]
  decide

/-! ## Invariants of the clock, the score and the board -/

theorem waitSlice_cases (pins : Pins) (s : Session) :
    ((waitSlice pins s).2 = true ∧ ∃ st, (waitSlice pins s).1 = { s with state := st }) ∨
    ((waitSlice pins s).2 = false ∧ s.timeout_counter < s.timeout ∧
      (waitSlice pins s).1 =
        { s with state := LED_CHOOSE,
                 timeout_counter := s.timeout_counter + Int.tdiv s.period POLLING_READS }) := by
  simp only [waitSlice]
  split
  · exact Or.inl ⟨rfl, _, rfl⟩
  · split
    · exact Or.inl ⟨rfl, _, rfl⟩
    · rename_i hnt
      split
      · exact Or.inl ⟨rfl, _, rfl⟩
      · exact Or.inr ⟨rfl, by omega, rfl⟩

/-- The polling loop keeps `timeout_counter` less than one slice above
`timeout` and never lowers it. -/
theorem waitLoop_time (polls : Nat → Pins) (fuel : Nat) (i : Int) (k : Nat) (s t : Session)
    (hi : 0 ≤ i) (hinv : s.timeout_counter < s.timeout + Int.tdiv s.period POLLING_READS)
    (h : waitLoop polls fuel i k s = some t) :
    s.timeout_counter ≤ t.timeout_counter ∧
    t.timeout_counter < s.timeout + Int.tdiv s.period POLLING_READS := by
  induction fuel generalizing i k s with
  | zero =>
    simp only [waitLoop] at h
    split at h
    · simp at h
    · simp only [Option.some.injEq] at h
      subst h
      exact ⟨le_rfl, hinv⟩
  | succ n ih =>
    simp only [waitLoop] at h
    split at h
    · rename_i hlt
      have hd : 0 ≤ Int.tdiv s.period POLLING_READS :=
        Int.tdiv_nonneg (by omega) (by decide)
      rcases waitSlice_cases (polls k) s with ⟨hb, st, hst⟩ | ⟨hb, htime, hst⟩
      · rw [hb] at h
        simp only [if_true, Option.some.injEq] at h
        subst h
        rw [hst]
        exact ⟨le_rfl, hinv⟩
      · rw [hb] at h
        simp only [Bool.false_eq_true, if_false] at h
        rw [hst] at h
        have hr := ih _ _ _ (by omega) (by dsimp only; omega) h
        dsimp only at hr
        exact ⟨by omega, hr.2⟩
    · simp only [Option.some.injEq] at h
      subst h
      exact ⟨le_rfl, hinv⟩

theorem tdiv_bonus_nonneg (x : Int) (h : -1000 < x) : 0 ≤ Int.tdiv x 1000 := by
  by_cases h0 : 0 ≤ x
  · exact Int.tdiv_nonneg h0 (by decide)
  · have hx : x = -(-x) := by omega
    rw [hx, Int.neg_tdiv, Int.tdiv_eq_zero_of_lt (by omega) (by omega)]
    decide

theorem timeOK_step (fuel : Nat) (polls : Nat → Pins) (s t : Session) (hl : levelOK s)
    (hs : timeOK s) (h : finiteStateMachine fuel polls s = some t) : timeOK t := by
  obtain ⟨hc0, hper0, hper8, hcase⟩ := hs
  obtain ⟨hl1, hl5, -⟩ := hl
  rcases hst : s.state
  case STARTUP =>
    rw [step_STARTUP fuel polls s hst, Option.some.injEq] at h
    subst h
    refine ⟨hc0, hper0, hper8, ?_⟩
    rcases hcase with hc | ⟨h1, h2, -⟩
    · exact Or.inl hc
    · refine Or.inr ⟨h1, h2, ?_⟩
      dsimp only
      split
      · exact Or.inr rfl
      · exact Or.inl rfl
  case LEVEL_SETUP =>
    rw [step_LEVEL_SETUP fuel polls s hst, Option.some.injEq] at h
    subst h
    simp only [timeOK, MAX_PERIOD, PERIOD_MODIFIER, MAX_TIMEOUT, TIMEOUT_MODIFIER]
    have hd : 0 ≤ Int.tdiv (1000 - 200 * s.level) POLLING_READS :=
      Int.tdiv_nonneg (by omega) (by decide)
    exact ⟨le_rfl, by omega, by omega, Or.inl (by omega)⟩
  case LED_CHOOSE =>
    rw [step_LED_CHOOSE fuel polls s hst, Option.some.injEq] at h
    subst h
    refine ⟨hc0, hper0, hper8, ?_⟩
    rcases hcase with hc | ⟨-, -, hc⟩
    · exact Or.inl hc
    · rcases hc with e | e <;> simp [hst] at e
  case WAIT_INPUT =>
    rw [step_WAIT_INPUT fuel polls s hst] at h
    have hinv : s.timeout_counter < s.timeout + Int.tdiv s.period POLLING_READS := by
      rcases hcase with hc | ⟨-, -, hc⟩
      · exact hc
      · rcases hc with e | e <;> simp [hst] at e
    obtain ⟨-, -, -, hper, htmo, hpts, -⟩ := waitLoop_frame polls fuel 0 0 s t le_rfl h
    obtain ⟨hmono, hbound⟩ := waitLoop_time polls fuel 0 0 s t le_rfl hinv h
    refine ⟨by omega, by omega, by omega, Or.inl ?_⟩
    rw [hper, htmo]
    exact hbound
  case CORRECT_INPUT =>
    rw [step_CORRECT_INPUT fuel polls s hst, Option.some.injEq] at h
    subst h
    have hinv : s.timeout_counter < s.timeout + Int.tdiv s.period POLLING_READS := by
      rcases hcase with hc | ⟨-, -, hc⟩
      · exact hc
      · rcases hc with e | e <;> simp [hst] at e
    exact ⟨hc0, hper0, hper8, Or.inl hinv⟩
  case WRONG_INPUT =>
    rw [step_WRONG_INPUT fuel polls s hst, Option.some.injEq] at h
    subst h
    refine ⟨hc0, hper0, hper8, ?_⟩
    rcases hcase with hc | ⟨-, -, hc⟩
    · exact Or.inl hc
    · rcases hc with e | e <;> simp [hst] at e
  case TIMEOUT =>
    rw [step_TIMEOUT fuel polls s hst, Option.some.injEq] at h
    subst h
    refine ⟨hc0, hper0, hper8, ?_⟩
    rcases hcase with hc | ⟨-, -, hc⟩
    · exact Or.inl hc
    · rcases hc with e | e <;> simp [hst] at e
  case DEFEAT =>
    rw [step_DEFEAT fuel polls s hst, Option.some.injEq] at h
    subst h
    refine ⟨hc0, hper0, hper8, ?_⟩
    rcases hcase with hc | ⟨-, -, hc⟩
    · exact Or.inl hc
    · rcases hc with e | e <;> simp [hst] at e
  case VICTORY =>
    rw [step_VICTORY fuel polls s hst, Option.some.injEq] at h
    subst h
    refine ⟨hc0, hper0, hper8, ?_⟩
    rcases hcase with hc | ⟨-, -, hc⟩
    · exact Or.inl hc
    · rcases hc with e | e <;> simp [hst] at e

theorem TurnOnLed_leds (led : Int) (s : Session) :
    (TurnOnLed led s).leds =
      ((s.leds.set 0 (if ((0 : Nat) : Int) = led then HIGH else LOW)).set 1
        (if ((1 : Nat) : Int) = led then HIGH else LOW)).set 2
        (if ((2 : Nat) : Int) = led then HIGH else LOW) := rfl

theorem GET_NEXT_LED_range (s : Session) :
    0 ≤ (GET_NEXT_LED s).1 ∧ (GET_NEXT_LED s).1 < NUMBER_LEDS := by
  simp only [GET_NEXT_LED, NUMBER_LEDS]
  have : castUnsigned (rand s).1 % 3 < 3 := Nat.mod_lt _ (by decide)
  omega

theorem boardOK_step (fuel : Nat) (polls : Nat → Pins) (s t : Session) (hs : boardOK s)
    (h : finiteStateMachine fuel polls s = some t) : boardOK t := by
  obtain ⟨hc0, hc3, hlen⟩ := hs
  rcases hst : s.state
  case STARTUP =>
    rw [step_STARTUP fuel polls s hst, Option.some.injEq] at h
    subst h
    exact ⟨hc0, hc3, by dsimp only; rw [TurnOnLed_leds]; simpa using hlen⟩
  case LEVEL_SETUP =>
    rw [step_LEVEL_SETUP fuel polls s hst, Option.some.injEq] at h
    subst h
    exact ⟨hc0, hc3, hlen⟩
  case LED_CHOOSE =>
    rw [step_LED_CHOOSE fuel polls s hst, Option.some.injEq] at h
    subst h
    exact ⟨(GET_NEXT_LED_range s).1, (GET_NEXT_LED_range s).2,
      by dsimp only; rw [TurnOnLed_leds]; simpa using hlen⟩
  case WAIT_INPUT =>
    rw [step_WAIT_INPUT fuel polls s hst] at h
    obtain ⟨-, -, -, -, -, -, hcur, -, hleds, -⟩ := waitLoop_frame polls fuel 0 0 s t le_rfl h
    exact ⟨hcur ▸ hc0, hcur ▸ hc3, hleds ▸ hlen⟩
  case CORRECT_INPUT =>
    rw [step_CORRECT_INPUT fuel polls s hst, Option.some.injEq] at h
    subst h
    exact ⟨hc0, hc3, by dsimp only; rw [WriteAllLeds_leds]; simpa using hlen⟩
  case WRONG_INPUT =>
    rw [step_WRONG_INPUT fuel polls s hst, Option.some.injEq] at h
    subst h
    exact ⟨hc0, hc3, by dsimp only; rw [WriteAllLeds_leds]; simpa using hlen⟩
  case TIMEOUT =>
    rw [step_TIMEOUT fuel polls s hst, Option.some.injEq] at h
    subst h
    exact ⟨hc0, hc3, by dsimp only; rw [WriteAllLeds_leds]; simpa using hlen⟩
  case DEFEAT =>
    rw [step_DEFEAT fuel polls s hst, Option.some.injEq] at h
    subst h
    exact ⟨hc0, hc3, by dsimp only; rw [WriteAllLeds_leds]; simpa using hlen⟩
  case VICTORY =>
    rw [step_VICTORY fuel polls s hst, Option.some.injEq] at h
    subst h
    exact ⟨hc0, hc3, by dsimp only; rw [WriteAllLeds_leds]; simpa using hlen⟩

theorem Reachable.clock_and_board {s : Session} (h : Reachable s) : timeOK s ∧ boardOK s := by
  induction h with
  | init =>
    refine ⟨⟨le_rfl, le_rfl, by decide, Or.inr ⟨rfl, rfl, Or.inl rfl⟩⟩, ?_⟩
    exact ⟨le_rfl, by decide, rfl⟩
  | step fuel polls hreach hstep ih =>
    exact ⟨timeOK_step fuel polls _ _ hreach.invariant.1 ih.1 hstep,
      boardOK_step fuel polls _ _ ih.2 hstep⟩

/-- Only the step taken from `STARTUP` changes `seed`, and only the step taken
from `CORRECT_INPUT` changes `points`; both write a wrapped sum. -/
theorem wordOK_step (fuel : Nat) (polls : Nat → Pins) (s t : Session) (hs : wordOK s)
    (h : finiteStateMachine fuel polls s = some t) : wordOK t := by
  obtain ⟨h1, h2, h3, h4⟩ := hs
  rcases hst : s.state
  case STARTUP =>
    rw [step_STARTUP fuel polls s hst, Option.some.injEq] at h
    subst h
    exact ⟨(wrapInt_range _).1, (wrapInt_range _).2, h3, h4⟩
  case LEVEL_SETUP =>
    rw [step_LEVEL_SETUP fuel polls s hst, Option.some.injEq] at h
    subst h
    exact ⟨h1, h2, h3, h4⟩
  case LED_CHOOSE =>
    rw [step_LED_CHOOSE fuel polls s hst, Option.some.injEq] at h
    subst h
    exact ⟨h1, h2, h3, h4⟩
  case WAIT_INPUT =>
    rw [step_WAIT_INPUT fuel polls s hst] at h
    obtain ⟨-, -, hseed, -, -, hpts, -⟩ := waitLoop_frame polls fuel 0 0 s t le_rfl h
    exact ⟨hseed ▸ h1, hseed ▸ h2, hpts ▸ h3, hpts ▸ h4⟩
  case CORRECT_INPUT =>
    rw [step_CORRECT_INPUT fuel polls s hst, Option.some.injEq] at h
    subst h
    exact ⟨h1, h2, (wrapInt_range _).1, (wrapInt_range _).2⟩
  case WRONG_INPUT =>
    rw [step_WRONG_INPUT fuel polls s hst, Option.some.injEq] at h
    subst h
    exact ⟨h1, h2, h3, h4⟩
  case TIMEOUT =>
    rw [step_TIMEOUT fuel polls s hst, Option.some.injEq] at h
    subst h
    exact ⟨h1, h2, h3, h4⟩
  case DEFEAT =>
    rw [step_DEFEAT fuel polls s hst, Option.some.injEq] at h
    subst h
    exact ⟨h1, h2, h3, h4⟩
  case VICTORY =>
    rw [step_VICTORY fuel polls s hst, Option.some.injEq] at h
    subst h
    exact ⟨h1, h2, h3, h4⟩

theorem Reachable.words {s : Session} (h : Reachable s) : wordOK s := by
  induction h with
  | init => exact ⟨by decide, by decide, by decide, by decide⟩
  | step fuel polls _ hstep ih => exact wordOK_step fuel polls _ _ ih hstep

/-! ## Reachable sample sessions -/

set_option maxRecDepth 100000 in
theorem overtimeExample_reachable : Reachable overtimeExample :=
  Reachable.run 10 overtimeRun Reachable.init (by decide)

set_option maxRecDepth 100000 in
theorem lateCorrectExample_reachable : Reachable lateCorrectExample :=
  Reachable.run 10 lateCorrectRun Reachable.init (by decide)

theorem stuckExample_reachable : Reachable stuckExample :=
  Reachable.run 10 (List.replicate 19 (press 2)) Reachable.init (by decide)

theorem rerollExample_reachable : Reachable rerollExample :=
  Reachable.run 10 [press 0, idle, idle, idle] Reachable.init (by decide)

/-! ## C11: elapsed time against the timeout -/

/-- C11 (counterexample): level 1 played without touching the buttons reaches,
after 36 steps, a session with `timeout_counter = 13040` and `timeout = 13000`:
the accumulated waiting time exceeds the timeout. -/
theorem elapsed_exceeds_timeout :
    Reachable overtimeExample ∧ overtimeExample.timeout < overtimeExample.timeout_counter :=
  ⟨overtimeExample_reachable, by decide⟩

/-- C11 (amended): in every session reachable from the initial state,
`timeout_counter` exceeds `timeout` by less than one slice: it is at most
`timeout`, or less than `timeout + period / 10`, and in any case less than
`timeout + 80`.  Exceeding forces a transition: a step taken from `WAIT_INPUT`
with `period > 0` and `timeout_counter ≥ timeout` ends at its first slice, in
`CORRECT_INPUT` if the first sample equals the target and in `TIMEOUT`
otherwise, and changes nothing but `state`, so nothing is added to
`timeout_counter`. -/
theorem elapsed_within_one_slice (s : Session) (h : Reachable s) :
    (s.timeout_counter ≤ s.timeout ∨
      s.timeout_counter < s.timeout + Int.tdiv s.period POLLING_READS) ∧
    s.timeout_counter < s.timeout + 80 ∧
    (s.state = WAIT_INPUT → 0 < s.period → s.timeout ≤ s.timeout_counter →
      ∀ (fuel : Nat) (polls : Nat → Pins),
        (PollButtons (polls 0) = s.current →
          finiteStateMachine (fuel + 1) polls s = some { s with state := CORRECT_INPUT }) ∧
        (PollButtons (polls 0) ≠ s.current →
          finiteStateMachine (fuel + 1) polls s = some { s with state := TIMEOUT })) := by
  obtain ⟨⟨-, hper0, hper8, hcase⟩, -⟩ := h.clock_and_board
  have hd : Int.tdiv s.period POLLING_READS = s.period / 10 :=
    Int.tdiv_eq_ediv hper0 (by decide)
  refine ⟨?_, ?_, ?_⟩
  · rcases hcase with hc | ⟨h1, h2, -⟩
    · exact Or.inr hc
    · exact Or.inl (by omega)
  · rcases hcase with hc | ⟨h1, h2, -⟩
    · omega
    · omega
  · intro hst hpos hover fuel polls
    rw [step_WAIT_INPUT (fuel + 1) polls s hst]
    have hge : s.timeout_counter ≥ s.timeout := hover
    refine ⟨fun hb => ?_, fun hb => ?_⟩
    · simp [waitLoop, waitSlice, hpos, hb]
    · simp [waitLoop, waitSlice, hpos, hb, hge]

/-- C11 (amended) at the counterexample: 13040 is less than one slice of 80
above 13000. -/
theorem elapsed_within_one_slice_witness :
    Reachable overtimeExample ∧
    overtimeExample.timeout_counter <
      overtimeExample.timeout + Int.tdiv overtimeExample.period POLLING_READS ∧
    overtimeExample.timeout_counter < overtimeExample.timeout + 80 := by
  obtain ⟨-, h80, -⟩ := elapsed_within_one_slice overtimeExample overtimeExample_reachable
  exact ⟨overtimeExample_reachable, by decide, h80⟩

/-! ## C12: the score never decreases -/

/-- C14: in every session reachable from the initial state `current` is a
channel index, `0 ≤ current < NUMBER_LEDS`; and the step taken from
`LED_CHOOSE` leaves exactly the LED at index `current` (the new target) `HIGH`
and the other two `LOW`. -/
theorem target_is_channel_index (s : Session) (h : Reachable s) :
    0 ≤ s.current ∧ s.current < NUMBER_LEDS ∧
    (s.state = LED_CHOOSE → ∀ (fuel : Nat) (polls : Nat → Pins),
      ∃ t, finiteStateMachine fuel polls s = some t ∧
        t.leds.length = NUMBER_LEDS ∧
        ∀ i, i < NUMBER_LEDS → t.leds[i]? = some (if (i : Int) = t.current then HIGH else LOW)) ∧
    HIGH ≠ LOW := by
  obtain ⟨-, hc0, hc3, hlen⟩ := h.clock_and_board
  refine ⟨hc0, hc3, ?_, by decide⟩
  intro hst fuel polls
  refine ⟨_, step_LED_CHOOSE fuel polls s hst, ?_, ?_⟩
  · show (TurnOnLed (GET_NEXT_LED s).1 s).leds.length = _
    rw [TurnOnLed_leds]
    simpa using hlen
  · intro i hi
    show (TurnOnLed (GET_NEXT_LED s).1 s).leds[i]? =
      some (if (i : Int) = (GET_NEXT_LED s).1 then HIGH else LOW)
    rw [TurnOnLed_leds]
    simp only [NUMBER_LEDS] at hi hlen
    obtain ⟨a, b, c, habc⟩ := List.length_eq_three.mp hlen
    rw [habc]
    have hcases : i = 0 ∨ i = 1 ∨ i = 2 := by omega
    rcases hcases with rfl | rfl | rfl <;> simp

/-- C14 at a reachable session: after an idle round the `LED_CHOOSE` step draws
target 2 and lights LED 2 only. -/
theorem target_is_channel_index_witness :
    (Reachable rerollExample ∧ rerollExample.state = LED_CHOOSE) ∧
    0 ≤ rerollExample.current ∧ rerollExample.current < NUMBER_LEDS ∧
    ∃ t, finiteStateMachine 0 idle rerollExample = some t ∧ t.current = 2 ∧
      t.leds = [LOW, LOW, HIGH] ∧
      ∀ i, i < NUMBER_LEDS → t.leds[i]? = some (if (i : Int) = t.current then HIGH else LOW) := by
  obtain ⟨h0, h3, hled, -⟩ := target_is_channel_index rerollExample rerollExample_reachable
  obtain ⟨t, ht, -, hall⟩ := hled rfl 0 idle
  have hval : ∃ u, finiteStateMachine 0 idle rerollExample = some u ∧ u.current = 2 ∧
      u.leds = [LOW, LOW, HIGH] := ⟨_, rfl, by decide, by decide⟩
  obtain ⟨u, hu, hcur, hleds⟩ := hval
  have htu : t = u := Option.some.inj (ht.symm.trans hu)
  subst htu
  exact ⟨⟨rerollExample_reachable, rfl⟩, h0, h3, t, ht, hcur, hleds, hall⟩

/-! ## C18: the game cannot be won -/

/-- A session waiting for input with a period that is not positive stays as it
is, whatever the fuel and the buttons, for any number of steps. -/
theorem run_stuck (fuel : Nat) (ps : List (Nat → Pins)) (s : Session)
    (hs : s.state = WAIT_INPUT) (hp : s.period ≤ 0) : run fuel ps s = some s := by
  have hno : ¬ (0 : Int) < s.period := by omega
  have hstep : ∀ p, finiteStateMachine fuel p s = some s := fun p => by
    rw [step_WAIT_INPUT fuel p s hs]
    cases fuel <;> simp only [waitLoop, if_neg hno]
  induction ps with
  | nil => rfl
  | cons p ps ih =>
    simp only [run, hstep p, Option.some_bind]
    exact ih

/-- C18: in every session reachable from the initial state, under any button
readings, the state is not `VICTORY` and `level` is at most 5.  At level 5 the
`LEVEL_SETUP` step computes `period = 0`; a session waiting for input at level
5 has `period = 0`, so the polling loop runs zero times (the step succeeds with
no fuel) and every step, and every run of steps, returns the session
unchanged. -/
theorem game_never_won (s : Session) (h : Reachable s) :
    s.state ≠ VICTORY ∧ s.level ≤ 5 ∧
    (s.level = 5 → s.state = LEVEL_SETUP → ∀ (fuel : Nat) (polls : Nat → Pins),
      ∃ t, finiteStateMachine fuel polls s = some t ∧ t.period = 0 ∧ t.level = 5) ∧
    (s.level = 5 → s.state = WAIT_INPUT →
      s.period = 0 ∧
      (∀ polls : Nat → Pins, finiteStateMachine 0 polls s = some s) ∧
      (∀ (fuel : Nat) (polls : Nat → Pins), finiteStateMachine fuel polls s = some s) ∧
      (∀ (fuel : Nat) (ps : List (Nat → Pins)), run fuel ps s = some s)) := by
  obtain ⟨⟨-, h5, -, hper, hv⟩, -⟩ := h.invariant
  refine ⟨hv, h5, ?_, ?_⟩
  · intro hl hst fuel polls
    refine ⟨_, step_LEVEL_SETUP fuel polls s hst, ?_, hl⟩
    show MAX_PERIOD - PERIOD_MODIFIER * s.level = 0
    rw [hl]
    decide
  · intro hl hst
    have hp : s.period = 0 := by
      rw [hper (Or.inr hst), hl]
      decide
    have hstep : ∀ (fuel : Nat) (polls : Nat → Pins),
        finiteStateMachine fuel polls s = some s := fun fuel polls => by
      have := run_stuck fuel [polls] s hst (le_of_eq hp)
      simpa [run] using this
    exact ⟨hp, hstep 0, hstep, fun fuel ps => run_stuck fuel ps s hst (le_of_eq hp)⟩

/-- C18 at a reachable session: four rounds won lead to level 5, where the
machine waits for input with `period = 0` and no button changes anything. -/
theorem game_never_won_witness :
    Reachable stuckExample ∧
    (stuckExample.level = 5 ∧ stuckExample.state = WAIT_INPUT) ∧
    stuckExample.period = 0 ∧
    run 10 [press 0, press 1, press 2, idle] stuckExample = some stuckExample := by
  obtain ⟨-, -, -, hstuck⟩ := game_never_won stuckExample stuckExample_reachable
  obtain ⟨hp, -, -, hrun⟩ := hstuck rfl rfl
  exact ⟨stuckExample_reachable, ⟨rfl, rfl⟩, hp, hrun 10 _⟩

/-! ## C19: the time bonus of a late correct press -/

/-- C19: in every reachable session in state `CORRECT_INPUT`,
`timeout_counter < timeout + period / 10` with `period / 10 ≤ 80`, so
`timeout - timeout_counter > -1000` and the truncating division gives a time
bonus that is not negative: the points awarded, `CALCULATE_PTS`, are at least
`level * 10 ≥ 10`, also when `timeout_counter` has passed `timeout`.  The step
adds them to `points` in 32-bit arithmetic; when the sum does not exceed
`INT_MAX`, `points` grows by at least `level * 10`. -/
theorem late_press_bonus_nonneg (s : Session) (h : Reachable s)
    (hs : s.state = CORRECT_INPUT) :
    s.timeout_counter < s.timeout + Int.tdiv s.period POLLING_READS ∧
    Int.tdiv s.period POLLING_READS ≤ 80 ∧
    -1000 < s.timeout - s.timeout_counter ∧
    0 ≤ Int.tdiv (s.timeout - s.timeout_counter) 1000 ∧
    10 ≤ s.level * 10 ∧
    s.level * 10 ≤ CALCULATE_PTS s.level (s.timeout - s.timeout_counter) ∧
    (∀ (fuel : Nat) (polls : Nat → Pins),
      ∃ t, finiteStateMachine fuel polls s = some t ∧
        t.points = wrapInt (s.points + CALCULATE_PTS s.level (s.timeout - s.timeout_counter)) ∧
        (s.points + CALCULATE_PTS s.level (s.timeout - s.timeout_counter) ≤ INT_MAX →
          s.points + s.level * 10 ≤ t.points)) := by
  obtain ⟨⟨-, hper0, hper8, hcase⟩, -⟩ := h.clock_and_board
  have hl1 := h.invariant.1.1
  have hlo := h.words.2.2.1
  have hinv : s.timeout_counter < s.timeout + Int.tdiv s.period POLLING_READS := by
    rcases hcase with hc | ⟨-, -, hc⟩
    · exact hc
    · rcases hc with e | e <;> simp [hs] at e
  have hd : Int.tdiv s.period POLLING_READS = s.period / 10 :=
    Int.tdiv_eq_ediv hper0 (by decide)
  have hgap : -1000 < s.timeout - s.timeout_counter := by omega
  have hbonus : 0 ≤ Int.tdiv (s.timeout - s.timeout_counter) 1000 :=
    tdiv_bonus_nonneg _ hgap
  have hpts : s.level * 10 ≤ CALCULATE_PTS s.level (s.timeout - s.timeout_counter) := by
    simp only [CALCULATE_PTS]
    omega
  refine ⟨hinv, by omega, hgap, hbonus, by omega, hpts, ?_⟩
  intro fuel polls
  refine ⟨_, step_CORRECT_INPUT fuel polls s hs, rfl, fun hfit => ?_⟩
  show s.points + s.level * 10 ≤
    wrapInt (s.points + CALCULATE_PTS s.level (s.timeout - s.timeout_counter))
  rw [wrapInt_of_range _ (by omega) hfit]
  omega

/-- C19 at a reachable session: the target is pressed when `timeout_counter` is
13040 and `timeout` 13000; the bonus is `(-40) / 1000 = 0` and the press earns
exactly 10 points. -/
theorem late_press_bonus_nonneg_witness :
    (Reachable lateCorrectExample ∧ lateCorrectExample.state = CORRECT_INPUT) ∧
    lateCorrectExample.timeout < lateCorrectExample.timeout_counter ∧
    0 ≤ Int.tdiv (lateCorrectExample.timeout - lateCorrectExample.timeout_counter) 1000 ∧
    CALCULATE_PTS lateCorrectExample.level
      (lateCorrectExample.timeout - lateCorrectExample.timeout_counter) = 10 := by
  obtain ⟨-, -, -, hbonus, -, -, -⟩ :=
    late_press_bonus_nonneg lateCorrectExample lateCorrectExample_reachable rfl
  exact ⟨⟨lateCorrectExample_reachable, rfl⟩, by decide, hbonus, by decide⟩

/-! ## Playing a game on purpose -/

/-- Any number of idle passes can be made: every even number, taken in 32-bit
arithmetic, is the seed of a reachable idle session. -/
theorem reach_seed (n : Nat) :
    ∃ s, Reachable s ∧ s.state = STARTUP ∧ s.seed = wrapInt (2 * n) := by
  induction n with
  | zero => exact ⟨initial, Reachable.init, rfl, by decide⟩
  | succ n ih =>
    obtain ⟨s, hr, hs, hp⟩ := ih
    have hb : ¬ PollButtons (idle 0) ≠ NO_BUTTON_PRESSED := by decide
    have hstep := step_STARTUP 0 idle s hs
    rw [if_neg hb] at hstep
    refine ⟨_, Reachable.step 0 idle hr hstep, rfl, ?_⟩
    show wrapInt (s.seed + SEED_INCREMENT) = _
    have harith : (2 : Int) * (n : Int) + SEED_INCREMENT = 2 * ((n + 1 : Nat) : Int) := by
      simp only [SEED_INCREMENT]; push_cast; ring
    rw [hp, wrapInt_add_wrap, harith]

/-! ## C6 and C12: the counters wrap -/

/-- C6 (counterexample): an idle pass taken with `seed = 2147483646` does not
leave `seed + 2 = 2147483648`, which is not a value of a 32-bit `int`, but
`-2147483648`, and lights LED 0; and a session in `STARTUP` with that seed is
reached from the initial state by 1073741823 idle passes. -/
theorem seed_wraps_past_int_max :
    (fullSeedExample.state = STARTUP ∧
      finiteStateMachine 0 idle fullSeedExample =
        some { fullSeedExample with seed := -2147483648, leds := [1, 0, 0] }) ∧
    ∃ s t, Reachable s ∧ s.state = STARTUP ∧ s.seed = 2147483646 ∧
      finiteStateMachine 0 idle s = some t ∧ t.seed = -2147483648 := by
  refine ⟨⟨rfl, by decide⟩, ?_⟩
  obtain ⟨s, hr, hs, hseed⟩ := reach_seed 1073741823
  have hval : wrapInt (2 * ((1073741823 : Nat) : Int)) = 2147483646 := by decide
  rw [hval] at hseed
  refine ⟨s, _, hr, hs, hseed, step_STARTUP 0 idle s hs, ?_⟩
  show wrapInt (s.seed + SEED_INCREMENT) = _
  rw [hseed]
  decide

end WhackAMole
